import Mathlib

/-!
Verification development for the reactive state-store core of the
`nerd-talk` repository (TypeScript sources under `src/state-store/`).

The TypeScript code is shallowly embedded: each Lean definition translates
one source function (the doc comment names its file and lines).  JavaScript
values are modeled by the inductive `JSValue`; object identity — the basis
of `===` on objects — is modeled by tagging every object/array literal with
a numeric tag, so that Lean term equality coincides with JavaScript
reference equality (a freshly allocated object carries a fresh tag, two
references to one allocation are the same term).  Code that can throw is
embedded in `Except String`.
-/

namespace StateStore

/-- JavaScript runtime values reachable in the state-container code paths.
Host-specific exotic objects (Date, RegExp, Map, Set, functions, …) do not
occur in those paths and are not representable.  `vobj`/`varr` carry an
identity tag modelling the heap reference. -/
inductive JSValue : Type where
  | vnull
  | vundefined
  | vnum (n : Int)
  | vstr (s : String)
  | vbool (b : Bool)
  | vobj (id : Nat) (fields : List (String × JSValue))
  | varr (id : Nat) (elems : List JSValue)

mutual

/-- JavaScript strict equality `===`: primitives by value, objects and
arrays by identity tag together with their (tag-determined) contents, so
that on well-formed heaps it coincides with reference equality. -/
def beqV : JSValue → JSValue → Bool
  | .vnull, .vnull => true
  | .vundefined, .vundefined => true
  | .vnum n, .vnum m => n == m
  | .vstr s, .vstr t => s == t
  | .vbool a, .vbool b => a == b
  | .vobj i fs, .vobj j gs => i == j && beqFields fs gs
  | .varr i xs, .varr j ys => i == j && beqList xs ys
  | _, _ => false

/-- Pointwise `beqV` on field lists. -/
def beqFields : List (String × JSValue) → List (String × JSValue) → Bool
  | [], [] => true
  | (k, v) :: fs, (k2, w) :: gs => k == k2 && beqV v w && beqFields fs gs
  | _, _ => false

/-- Pointwise `beqV` on element lists. -/
def beqList : List JSValue → List JSValue → Bool
  | [], [] => true
  | v :: xs, w :: ys => beqV v w && beqList xs ys
  | _, _ => false

end

/-- Top-level state and update objects: ordered own-property lists
(`Record<string, any>` / `Partial<TState>`). -/
abbrev Fields := List (String × JSValue)

/-- JavaScript `typeof` (note `typeof null === 'object'`). -/
def jsTypeof : JSValue → String
  | .vnull => "object"
  | .vundefined => "undefined"
  | .vnum _ => "number"
  | .vstr _ => "string"
  | .vbool _ => "boolean"
  | .vobj _ _ => "object"
  | .varr _ _ => "object"

/-- JavaScript truthiness of a value. -/
def truthy : JSValue → Bool
  | .vnull => false
  | .vundefined => false
  | .vnum n => n != 0
  | .vstr s => s != ""
  | .vbool b => b
  | .vobj _ _ => true
  | .varr _ _ => true

/-- Own enumerable keys, `Object.keys`: field names of an object, index
strings of an array.  (The engine-level reordering of integer-like object
keys is not modelled; the embedded states use non-numeric keys.) -/
def jsKeys : JSValue → List String
  | .vobj _ fields => fields.map Prod.fst
  | .varr _ elems => (List.range elems.length).map (fun i => toString i)
  | _ => []

/-- Property read `obj[key]` on an object value (missing key yields
`undefined`, as in JavaScript). -/
def jsGet (v : JSValue) (key : String) : JSValue :=
  match v with
  | .vobj _ fields =>
      match fields.find? (fun p => p.1 == key) with
      | some p => p.2
      | none => .vundefined
  | .varr _ elems =>
      match (elems.zip (List.range elems.length)).find? (fun p => toString p.2 == key) with
      | some p => p.1
      | none => .vundefined
  | _ => .vundefined

/-- Read of `fields[key]` on a top-level state record (missing key yields
`undefined`). -/
def lookupF (fs : Fields) (key : String) : JSValue :=
  match fs.find? (fun p => p.1 == key) with
  | some p => p.2
  | none => .vundefined

/-- Own-property test used for the `key in nextState` filter of
`updateState` (the prototype chain is not modelled: the embedded states are
plain data records). -/
def keyIn (fs : Fields) (key : String) : Bool :=
  fs.any (fun p => p.1 == key)

/-- Property assignment `fields[key] = v`: overwrites in place when the key
exists, appends otherwise (JavaScript keeps the original insertion position
on overwrite). -/
def setKey (fs : Fields) (key : String) (v : JSValue) : Fields :=
  match fs with
  | [] => [(key, v)]
  | (k0, v0) :: rest =>
      if k0 == key then (k0, v) :: rest else (k0, v0) :: setKey rest key v

/-- Insertion into a JavaScript `Set<string>` (insertion order kept,
duplicates ignored). -/
def insertSet (l : List String) (x : String) : List String :=
  if l.contains x then l else l ++ [x]

/-- Test for `/^\d+$/` on a key (used to choose `root[3]` over `root.3`
path notation). -/
def isNumericKey (s : String) : Bool :=
  s ≠ "" && s.toList.all Char.isDigit

/-- Path for one property under `rootPath`, bracket form for numeric keys
(`StateContainer.addNestedPaths`, `StateContainer.ts:86,145`). -/
def propPath (rootPath key : String) : String :=
  if isNumericKey key then rootPath ++ "[" ++ key ++ "]"
  else rootPath ++ "." ++ key

/-- getObjectType of `src/state-store/utils/objectTraversal.ts:50-71`,
restricted to the representable values.  Note that it classifies `null` as
`type = "object"` (because `typeof null === 'object'` and the early return
fires before the instance tests). -/
def getObjectType (v : JSValue) : Bool × String :=
  match v with
  | .vnull => (false, "object")
  | .varr _ _ => (true, "array")
  | .vobj _ _ => (false, "object")
  | v => (false, jsTypeof v)

/-- Result of `Object.keys(v)` as the JavaScript builtin behaves: it throws
a TypeError on `null`/`undefined` and returns the own keys otherwise. -/
def objectKeysE (v : JSValue) : Except String (List String) :=
  match v with
  | .vnull => .error "TypeError: Cannot convert undefined or null to object"
  | .vundefined => .error "TypeError: Cannot convert undefined or null to object"
  | v => .ok (jsKeys v)

/-- Array length read `(v as any[]).length` (only reached when
`getObjectType` said `array`). -/
def arrLength (v : JSValue) : Nat :=
  match v with
  | .varr _ elems => elems.length
  | _ => 0

/-- detectStructuralChanges of `src/state-store/utils/compare.ts:325-413`.
One-level key/length/type comparison.  The source's nested-object branch
calls `Object.keys` on the raw field values; since `getObjectType` reports
`null` as `type = "object"`, a nested `null` field reaches
`Object.keys(null)`, which throws — embedded as the `Except.error` case. -/
def detectStructuralChanges (currentState nextState : JSValue) : Except String Bool := do
  -- compare.ts:330-338 — non-object / null early return
  if beqV currentState .vnull || beqV nextState .vnull ||
      jsTypeof currentState ≠ "object" || jsTypeof nextState ≠ "object" then
    return (jsTypeof currentState ≠ jsTypeof nextState || ¬ beqV currentState nextState)
  let currentKeys := jsKeys currentState
  let nextKeys := jsKeys nextState
  -- compare.ts:344-346 — key-count fast path
  if currentKeys.length ≠ nextKeys.length then
    return true
  -- compare.ts:349-364 — key membership (the Set-based and direct loops
  -- compute the same predicate)
  if currentKeys.length > 10 then
    if currentKeys.any (fun k => ¬ nextKeys.contains k) then
      return true
  else
    if currentKeys.any (fun k => ¬ nextKeys.contains k) then
      return true
  -- compare.ts:367-409 — one-level nested structure comparison
  for key in currentKeys do
    let currentValue := jsGet currentState key
    let nextValue := jsGet nextState key
    let currentTypeInfo := getObjectType currentValue
    let nextTypeInfo := getObjectType nextValue
    if currentTypeInfo.2 ≠ nextTypeInfo.2 then
      return true
    if currentTypeInfo.2 = "array" then
      if arrLength currentValue ≠ arrLength nextValue then
        return true
    else if currentTypeInfo.2 = "object" then
      let oldInnerKeys ← objectKeysE currentValue
      let newInnerKeys ← objectKeysE nextValue
      if oldInnerKeys.length ≠ newInnerKeys.length then
        return true
      if oldInnerKeys.length > 10 then
        if oldInnerKeys.any (fun k => ¬ newInnerKeys.contains k) then
          return true
      else
        if oldInnerKeys.any (fun k => ¬ newInnerKeys.contains k) then
          return true
  return false

mutual

/-- addNestedPaths of
`src/state-store/core/internal/state/StateContainer.ts:122-153`: records
the path of every nested property (array indices in bracket notation)
under `rootPath` into the changed-path set. -/
def addNestedPaths (rootPath : String) (obj : JSValue) (paths : List String) : List String :=
  -- StateContainer.ts:123 — `if (!obj || typeof obj !== 'object') return`
  if ¬ truthy obj || jsTypeof obj ≠ "object" then paths
  else
    match obj with
    | .varr _ elems => addNestedPathsArr rootPath 0 elems paths
    | .vobj _ fields => addNestedPathsObj rootPath fields paths
    | _ => paths

/-- Array branch of addNestedPaths (`StateContainer.ts:126-138`), iterating
`obj.entries()` with the running index. -/
def addNestedPathsArr (rootPath : String) (i : Nat) (elems : List JSValue) (paths : List String) : List String :=
  match elems with
  | [] => paths
  | item :: rest =>
      let itemPath := rootPath ++ "[" ++ toString i ++ "]"
      let paths := insertSet paths itemPath
      let paths :=
        if truthy item && jsTypeof item = "object" then
          addNestedPaths itemPath item paths
        else paths
      addNestedPathsArr rootPath (i + 1) rest paths

/-- Object branch of addNestedPaths (`StateContainer.ts:141-152`), iterating
`Object.entries(obj)` (every entry is an own property). -/
def addNestedPathsObj (rootPath : String) (fields : List (String × JSValue)) (paths : List String) : List String :=
  match fields with
  | [] => paths
  | (key, value) :: rest =>
      let p := propPath rootPath key
      let paths := insertSet paths p
      let paths :=
        if truthy value && jsTypeof value = "object" then
          addNestedPaths p value paths
        else paths
      addNestedPathsObj rootPath rest paths

end

/-- Change-detection accumulator threaded through the per-key loop of
`StateContainer.updateState` (`StateContainer.ts:38-42`). -/
structure UpdAcc where
  nextState : Fields
  changedKeys : List String
  changedPaths : List String
  hasChanges : Bool
  hasStructuralChange : Bool

/-- Body of the per-key loop of `StateContainer.updateState`
(`src/state-store/core/internal/state/StateContainer.ts:47-100`).  Reads
`currentValue` from the pre-update state (`this.state[key]`), applies the
reference-equality fast path, classifies object-against-object updates via
`detectStructuralChanges` (which can throw, see there), and records changed
keys and paths. -/
def updateKey (state newState : Fields) (acc : UpdAcc) (key : String) : Except String UpdAcc :=
  let currentValue := lookupF state key
  let newValue := lookupF newState key
  -- StateContainer.ts:52 — reference-equality fast path
  if beqV currentValue newValue then .ok acc
  -- StateContainer.ts:55-60 — object-against-object update
  else if jsTypeof currentValue = "object" && jsTypeof newValue = "object" &&
      ¬ beqV currentValue .vnull && ¬ beqV newValue .vnull then
    let currentKeys := jsKeys currentValue
    let newKeys := jsKeys newValue
    -- StateContainer.ts:66-68 (a thrown TypeError aborts the update)
    match detectStructuralChanges currentValue newValue with
    | .error e => .error e
    | .ok sc =>
        let structuralChanged :=
          sc || ((currentKeys.length : Int) - (newKeys.length : Int)).natAbs > 3
        let hasStructuralChange := acc.hasStructuralChange || structuralChanged
        -- StateContainer.ts:74-77
        let nextState := setKey acc.nextState key newValue
        let changedKeys := insertSet acc.changedKeys key
        let changedPaths := insertSet acc.changedPaths key
        -- StateContainer.ts:80-89 (`typeof newValue === 'object'` holds here)
        let changedPaths := addNestedPaths key newValue changedPaths
        let changedPaths :=
          if structuralChanged then
            currentKeys.foldl (fun ps oldKey => insertSet ps (propPath key oldKey)) changedPaths
          else changedPaths
        .ok ⟨nextState, changedKeys, changedPaths, true, hasStructuralChange⟩
  else
    -- StateContainer.ts:93-99 — primitive-or-null update
    .ok ⟨setKey acc.nextState key newValue, insertSet acc.changedKeys key,
         insertSet acc.changedPaths key, true, acc.hasStructuralChange⟩

/-- Left-to-right iteration of `updateKey` over the filtered update keys
(the `fx(updatedKeys).filter(...).each(...)` chain of
`StateContainer.ts:45-100`); an exception aborts the loop as in the
source. -/
def updateKeys (state newState : Fields) (acc : UpdAcc) : List String → Except String UpdAcc
  | [] => .ok acc
  | k :: ks =>
      match updateKey state newState acc k with
      | .error e => .error e
      | .ok acc2 => updateKeys state newState acc2 ks

/-- Explicit-path option handling of `StateContainer.ts:111-113`
(`if (options.statePath) changedPaths.add(options.statePath)`). -/
def applyStatePath (sp : Option String) (paths : List String) : List String :=
  match sp with
  | some p => insertSet paths p
  | none => paths

/-- Result record of `StateContainer.updateState`. -/
structure UpdateResult where
  changedKeys : List String
  changedPaths : List String
  hasStructuralChange : Bool

/-- updateState of
`src/state-store/core/internal/state/StateContainer.ts:29-116`.  Returns
the post-update state together with the change summary; keys of the update
absent from the current state are dropped by the
`filter((key) => key in nextState)` step (`nextState` starts as a copy of
the state and its key set never changes during the loop, so the filter
tests membership in the pre-update state). -/
def updateState (state newState : Fields) (statePath : Option String) : Except String (Fields × UpdateResult) :=
  let updatedKeys := newState.map Prod.fst
  -- StateContainer.ts:34-36
  if updatedKeys.isEmpty then .ok (state, ⟨[], [], false⟩)
  else
    match updateKeys state newState ⟨state, [], [], false, false⟩
            (updatedKeys.filter (fun k => keyIn state k)) with
    | .error e => .error e
    | .ok acc =>
        -- StateContainer.ts:103-105 — nothing effectively changed
        if ¬ acc.hasChanges then .ok (state, ⟨[], [], false⟩)
        else
          -- StateContainer.ts:108-113
          .ok (acc.nextState,
               ⟨acc.changedKeys, applyStatePath statePath acc.changedPaths,
                acc.hasStructuralChange⟩)

/-- Observable outcome of one `InternalStateManager._setState` call. -/
structure SetStateOutcome where
  state : Fields
  scheduled : Bool
  computedUpdated : Bool
  errored : Bool

/-- setState of `src/state-store/core/internal/state/index.ts:190-236`
(`InternalStateManager._setState`), wrapped in `safeAction`
(`src/state-store/utils/errorBoundary.ts:361-363`).  On an exception the
error boundary catches, logs and (asynchronously) retries the same
deterministic computation, so the state is left untouched and nothing is
scheduled; otherwise, when no key effectively changed the call returns
before touching computed values or the update scheduler, and when keys
changed it re-evaluates affected computed values and (unless `silent`)
schedules exactly one notification batch. -/
def setStateModel (state newState : Fields) (silent : Bool) (statePath : Option String) : SetStateOutcome :=
  match updateState state newState statePath with
  | .error _ => ⟨state, false, false, true⟩
  | .ok (state2, res) =>
      -- index.ts:208 — `if (changedKeys.size === 0) return`
      if res.changedKeys.isEmpty then ⟨state2, false, false, false⟩
      else ⟨state2, !silent, true, false⟩

mutual

/-- Strict equality is reflexive: a value is `===` to itself. -/
theorem beqV_refl (v : JSValue) : beqV v v = true := by
  cases v with
  | vnull => rfl
  | vundefined => rfl
  | vnum n => simp [beqV]
  | vstr s => simp [beqV]
  | vbool b => simp [beqV]
  | vobj i fs => simp [beqV, beqFields_refl fs]
  | varr i xs => simp [beqV, beqList_refl xs]

/-- Reflexivity of `beqFields`. -/
theorem beqFields_refl (fs : List (String × JSValue)) : beqFields fs fs = true := by
  cases fs with
  | nil => rfl
  | cons p rest => simp [beqFields, beqV_refl p.2, beqFields_refl rest]

/-- Reflexivity of `beqList`. -/
theorem beqList_refl (xs : List JSValue) : beqList xs xs = true := by
  cases xs with
  | nil => rfl
  | cons v rest => simp [beqList, beqV_refl v, beqList_refl rest]

end

/-- Values distinguished by `beqV` are distinct terms. -/
theorem ne_of_beqV_false {v w : JSValue} (h : beqV v w = false) : v ≠ w := by
  intro rfl_h
  rw [rfl_h, beqV_refl] at h
  exact absurd h (by simp)

/-- Assignment stores the value at the assigned key. -/
theorem lookupF_setKey_self (fs : Fields) (k : String) (v : JSValue) :
    lookupF (setKey fs k v) k = v := by
  induction fs with
  | nil => simp [setKey, lookupF]
  | cons p rest ih =>
      by_cases h : p.1 = k
      · simp [setKey, lookupF, h]
      · simpa [setKey, lookupF, h] using ih

/-- Assignment leaves every other key untouched. -/
theorem lookupF_setKey_ne (fs : Fields) (k j : String) (v : JSValue) (h : j ≠ k) :
    lookupF (setKey fs k v) j = lookupF fs j := by
  induction fs with
  | nil => simp [setKey, lookupF, h, Ne.symm h]
  | cons p rest ih =>
      by_cases hk : p.1 = k
      · simp [setKey, lookupF, hk, Ne.symm h]
      · by_cases hj : p.1 = j
        · subst hj
          simp [setKey, lookupF, hk]
        · simpa [setKey, lookupF, hk, hj] using ih

/-- Assignment to an existing key preserves the ordered key set. -/
theorem setKey_map_fst (fs : Fields) (k : String) (v : JSValue) (h : keyIn fs k = true) :
    (setKey fs k v).map Prod.fst = fs.map Prod.fst := by
  induction fs with
  | nil => simp [keyIn] at h
  | cons p rest ih =>
      by_cases hk : p.1 = k
      · simp [setKey, hk]
      · have h2 : keyIn rest k = true := by
          simpa [keyIn, hk] using h
        simp [setKey, hk, ih h2]

/-- Key membership only depends on the ordered key set. -/
theorem keyIn_eq_decide (fs : Fields) (k : String) :
    keyIn fs k = decide (k ∈ fs.map Prod.fst) := by
  induction fs with
  | nil => rfl
  | cons p rest ih =>
      by_cases hk : p.1 = k
      · simp [keyIn, hk]
      · have hik : keyIn rest k = (rest.any fun p => p.1 == k) := rfl
        simp only [keyIn, List.any_cons, List.map_cons, List.mem_cons]
        rw [← hik, ih]
        have h1 : (p.1 == k) = false := by simpa using hk
        rw [h1]
        simp [Ne.symm hk]

/-- A key outside the record reads as `undefined`. -/
theorem lookupF_eq_vundefined_of_not_keyIn (fs : Fields) (k : String) (h : keyIn fs k = false) :
    lookupF fs k = .vundefined := by
  induction fs with
  | nil => rfl
  | cons p rest ih =>
      by_cases hk : p.1 = k
      · simp [keyIn, hk] at h
      · have h2 : keyIn rest k = false := by
          simpa [keyIn, hk] using h
        simpa [lookupF, hk] using ih h2

/-- State and update of claim C1's failing input: the current value of key
`a` is an object with a `null` field, the update supplies a structurally
different replacement object that also carries the `null` field. -/
def c1State : Fields := [("a", .vobj 1 [("x", .vnull), ("y", .vnum 1)])]

/-- Replacement object for `c1State`: same key set, fresh identity, `y`
changed. -/
def c1Update : Fields := [("a", .vobj 2 [("x", .vnull), ("y", .vnum 2)])]

/-- Claim C1 (code bug evidence): `setState(u)` followed by `getState()` is
specified to return the state with `u`'s keys overwritten, but on the
well-typed input `s = {a: {x: null, y: 1}}`, `u = {a: {x: null, y: 2}}` the
per-key update reaches `detectStructuralChanges`, whose nested one-level
comparison classifies the `null` field as `type === 'object'` and calls
`Object.keys(null)`, which throws a TypeError; the error boundary swallows
the exception and the state keeps `y = 1` instead of the specified
`y = 2`. -/
theorem c1_setState_update_lost_on_nested_null :
    updateState c1State c1Update none =
      .error "TypeError: Cannot convert undefined or null to object" ∧
    setStateModel c1State c1Update false none = ⟨c1State, false, false, true⟩ ∧
    jsGet (lookupF (setStateModel c1State c1Update false none).state "a") "y" = .vnum 1 ∧
    jsGet (lookupF c1Update "a") "y" = .vnum 2 :=
  ⟨rfl, rfl, rfl, rfl⟩

/-- Inserting into a change set never produces the empty set. -/
theorem insertSet_ne_nil (l : List String) (x : String) : insertSet l x ≠ [] := by
  unfold insertSet
  split
  · next hc =>
      intro hnil
      rw [hnil] at hc
      simp at hc
  · simp

/-- The fast path: when the stored and supplied values are `===`, the
per-key update is a no-op. -/
theorem updateKey_fast {state newState : Fields} {acc : UpdAcc} {key : String}
    (h : beqV (lookupF state key) (lookupF newState key) = true) :
    updateKey state newState acc key = .ok acc := by
  unfold updateKey
  simp [h]

/-- Case analysis of a successful per-key update: either the fast path
fired and nothing changed, or the key was rewritten to the supplied value
and recorded as changed. -/
theorem updateKey_ok_cases {state newState : Fields} {acc acc2 : UpdAcc} {key : String}
    (h : updateKey state newState acc key = .ok acc2) :
    (beqV (lookupF state key) (lookupF newState key) = true ∧ acc2 = acc) ∨
    (beqV (lookupF state key) (lookupF newState key) = false ∧
     acc2.nextState = setKey acc.nextState key (lookupF newState key) ∧
     acc2.changedKeys = insertSet acc.changedKeys key ∧
     acc2.hasChanges = true) := by
  unfold updateKey at h
  by_cases hfast : beqV (lookupF state key) (lookupF newState key) = true
  · left
    refine ⟨hfast, ?_⟩
    simp only [hfast, if_true, Except.ok.injEq] at h
    exact h.symm
  · right
    have hfast2 : beqV (lookupF state key) (lookupF newState key) = false := by
      simpa using hfast
    refine ⟨hfast2, ?_⟩
    simp only [hfast2, Bool.false_eq_true, if_false] at h
    split at h
    · -- object-against-object branch, threading detectStructuralChanges
      split at h
      · exact absurd h (by simp)
      · simp only [Except.ok.injEq] at h
        subst h
        exact ⟨rfl, rfl, rfl⟩
    · simp only [Except.ok.injEq] at h
      subst h
      exact ⟨rfl, rfl, rfl⟩

/-- The `hasChanges` flag is monotone along the per-key loop. -/
theorem updateKey_hasChanges_mono {state newState : Fields} {acc acc2 : UpdAcc} {key : String}
    (h : updateKey state newState acc key = .ok acc2) (hc : acc.hasChanges = true) :
    acc2.hasChanges = true := by
  rcases updateKey_ok_cases h with ⟨_, rfl⟩ | ⟨_, _, _, h4⟩
  · exact hc
  · exact h4

/-- One per-key step preserves "this key already holds the supplied
value". -/
theorem updateKey_preserves_beq {state newState : Fields} {acc acc2 : UpdAcc} {key j : String}
    (h : updateKey state newState acc key = .ok acc2)
    (hq : beqV (lookupF acc.nextState j) (lookupF newState j) = true) :
    beqV (lookupF acc2.nextState j) (lookupF newState j) = true := by
  rcases updateKey_ok_cases h with ⟨_, rfl⟩ | ⟨_, hns, _, _⟩
  · exact hq
  · rw [hns]
    by_cases hj : j = key
    · subst hj
      rw [lookupF_setKey_self]
      exact beqV_refl _
    · rw [lookupF_setKey_ne _ _ _ _ hj]
      exact hq

/-- The whole loop preserves "this key already holds the supplied
value". -/
theorem updateKeys_preserves_beq {state newState : Fields} :
    ∀ (ks : List String) {acc acc2 : UpdAcc} {j : String},
      updateKeys state newState acc ks = .ok acc2 →
      beqV (lookupF acc.nextState j) (lookupF newState j) = true →
      beqV (lookupF acc2.nextState j) (lookupF newState j) = true := by
  intro ks
  induction ks with
  | nil =>
      intro acc acc2 j h hq
      cases h
      exact hq
  | cons k ks ih =>
      intro acc acc2 j h hq
      unfold updateKeys at h
      split at h
      · exact absurd h (by simp)
      · next acc1 heq =>
          exact ih h (updateKey_preserves_beq heq hq)

/-- Main loop invariant: every accumulated entry either still holds its
pre-update value or already holds the supplied value, and every processed
key ends up `===` to its supplied value. -/
theorem updateKeys_post {state newState : Fields} :
    ∀ (ks : List String) {acc acc2 : UpdAcc},
      updateKeys state newState acc ks = .ok acc2 →
      (∀ j, lookupF acc.nextState j = lookupF state j ∨
            beqV (lookupF acc.nextState j) (lookupF newState j) = true) →
      (∀ j, lookupF acc2.nextState j = lookupF state j ∨
            beqV (lookupF acc2.nextState j) (lookupF newState j) = true) ∧
      (∀ k ∈ ks, beqV (lookupF acc2.nextState k) (lookupF newState k) = true) := by
  intro ks
  induction ks with
  | nil =>
      intro acc acc2 h hP
      cases h
      exact ⟨hP, by simp⟩
  | cons k ks ih =>
      intro acc acc2 h hP
      unfold updateKeys at h
      split at h
      · exact absurd h (by simp)
      · next acc1 heq =>
          have hQ1 : beqV (lookupF acc1.nextState k) (lookupF newState k) = true := by
            rcases updateKey_ok_cases heq with ⟨hb, rfl⟩ | ⟨_, hns, _, _⟩
            · rcases hP k with hl | hr
              · rw [hl]; exact hb
              · exact hr
            · rw [hns, lookupF_setKey_self]
              exact beqV_refl _
          have hP1 : ∀ j, lookupF acc1.nextState j = lookupF state j ∨
              beqV (lookupF acc1.nextState j) (lookupF newState j) = true := by
            intro j
            rcases updateKey_ok_cases heq with ⟨_, rfl⟩ | ⟨_, hns, _, _⟩
            · exact hP j
            · by_cases hj : j = k
              · subst hj
                right
                rw [hns, lookupF_setKey_self]
                exact beqV_refl _
              · rw [hns, lookupF_setKey_ne _ _ _ _ hj]
                exact hP j
          obtain ⟨hP2, hQ2⟩ := ih h hP1
          refine ⟨hP2, ?_⟩
          intro k2 hk2
          rcases List.mem_cons.mp hk2 with rfl | hmem
          · exact updateKeys_preserves_beq ks h hQ1
          · exact hQ2 k2 hmem

/-- The loop preserves the ordered key set of the accumulated state when
every processed key already exists. -/
theorem updateKeys_map_fst {state newState : Fields} :
    ∀ (ks : List String) {acc acc2 : UpdAcc},
      (∀ k ∈ ks, keyIn state k = true) →
      acc.nextState.map Prod.fst = state.map Prod.fst →
      updateKeys state newState acc ks = .ok acc2 →
      acc2.nextState.map Prod.fst = state.map Prod.fst := by
  intro ks
  induction ks with
  | nil =>
      intro acc acc2 _ hfst h
      cases h
      exact hfst
  | cons k ks ih =>
      intro acc acc2 hin hfst h
      unfold updateKeys at h
      split at h
      · exact absurd h (by simp)
      · next acc1 heq =>
          have hk : keyIn acc.nextState k = true := by
            rw [keyIn_eq_decide, hfst, ← keyIn_eq_decide]
            exact hin k (List.mem_cons_self k ks)
          have hfst1 : acc1.nextState.map Prod.fst = state.map Prod.fst := by
            rcases updateKey_ok_cases heq with ⟨_, rfl⟩ | ⟨_, hns, _, _⟩
            · exact hfst
            · rw [hns, setKey_map_fst _ _ _ hk]
              exact hfst
          exact ih (fun k2 hk2 => hin k2 (List.mem_cons_of_mem k hk2)) hfst1 h

/-- A loop run that reports no change is a complete no-op. -/
theorem updateKeys_eq_of_hasChanges_false {state newState : Fields} :
    ∀ (ks : List String) {acc acc2 : UpdAcc},
      updateKeys state newState acc ks = .ok acc2 →
      acc2.hasChanges = false →
      acc2 = acc := by
  intro ks
  induction ks with
  | nil =>
      intro acc acc2 h _
      cases h
      rfl
  | cons k ks ih =>
      intro acc acc2 h hc
      unfold updateKeys at h
      split at h
      · exact absurd h (by simp)
      · next acc1 heq =>
          rcases updateKey_ok_cases heq with ⟨_, rfl⟩ | ⟨_, _, _, h4⟩
          · exact ih h hc
          · have : acc2.hasChanges = true := by
              have mono : ∀ (ks2 : List String) {b c : UpdAcc},
                  updateKeys state newState b ks2 = .ok c → b.hasChanges = true →
                  c.hasChanges = true := by
                intro ks2
                induction ks2 with
                | nil =>
                    intro b c hh hb
                    cases hh
                    exact hb
                | cons k2 ks2 ih2 =>
                    intro b c hh hb
                    unfold updateKeys at hh
                    split at hh
                    · exact absurd hh (by simp)
                    · next b1 heq2 =>
                        exact ih2 hh (updateKey_hasChanges_mono heq2 hb)
              exact mono ks h h4
            rw [this] at hc
            exact absurd hc (by simp)

/-- When the summary says a change happened, the changed-key set is not
empty. -/
theorem updateKeys_changedKeys_ne_nil {state newState : Fields} :
    ∀ (ks : List String) {acc acc2 : UpdAcc},
      updateKeys state newState acc ks = .ok acc2 →
      (acc.hasChanges = true → acc.changedKeys ≠ []) →
      (acc2.hasChanges = true → acc2.changedKeys ≠ []) := by
  intro ks
  induction ks with
  | nil =>
      intro acc acc2 h hpre
      cases h
      exact hpre
  | cons k ks ih =>
      intro acc acc2 h hpre
      unfold updateKeys at h
      split at h
      · exact absurd h (by simp)
      · next acc1 heq =>
          refine ih h ?_
          rcases updateKey_ok_cases heq with ⟨_, rfl⟩ | ⟨_, _, h3, _⟩
          · exact hpre
          · intro _
            rw [h3]
            exact insertSet_ne_nil _ _

/-- A successful update that reports no changed key returned the state
unchanged. -/
theorem updateState_ok_empty_changed {state newState : Fields} {sp : Option String}
    {s2 : Fields} {res : UpdateResult}
    (h : updateState state newState sp = .ok (s2, res))
    (hck : res.changedKeys = []) : s2 = state := by
  simp only [updateState] at h
  split at h
  · simp only [Except.ok.injEq, Prod.mk.injEq] at h
    exact h.1.symm
  · split at h
    · exact absurd h (by simp)
    · next acc heq =>
        split at h
        · simp only [Except.ok.injEq, Prod.mk.injEq] at h
          exact h.1.symm
        · next hnc =>
            have hc : acc.hasChanges = true := by
              revert hnc
              cases acc.hasChanges <;> simp
            have hne := updateKeys_changedKeys_ne_nil _ heq (by intro hfalse; simp at hfalse) hc
            simp only [Except.ok.injEq, Prod.mk.injEq] at h
            rw [← h.2] at hck
            simp only [] at hck
            exact absurd hck hne

/-- Behaviour of a successful update: the ordered key set is preserved,
every update key that exists in the state ends up `===` to its supplied
value, and keys missing from the state are untouched (silently dropped). -/
theorem updateState_ok_post {state newState : Fields} {sp : Option String}
    {s2 : Fields} {res : UpdateResult}
    (h : updateState state newState sp = .ok (s2, res)) :
    s2.map Prod.fst = state.map Prod.fst ∧
    (∀ k ∈ newState.map Prod.fst, keyIn state k = true →
      beqV (lookupF s2 k) (lookupF newState k) = true) ∧
    (∀ k, keyIn state k = false → lookupF s2 k = lookupF state k) := by
  have hfilter : ∀ k ∈ (newState.map Prod.fst).filter (fun k => keyIn state k),
      keyIn state k = true := by
    intro k hk
    exact List.of_mem_filter hk
  simp only [updateState] at h
  split at h
  · next hempty =>
      simp only [Except.ok.injEq, Prod.mk.injEq] at h
      obtain ⟨hs, _⟩ := h
      subst hs
      refine ⟨rfl, ?_, fun k _ => rfl⟩
      intro k hk
      rw [List.isEmpty_iff] at hempty
      rw [hempty] at hk
      exact absurd hk (by simp)
  · split at h
    · exact absurd h (by simp)
    · next acc heq =>
        have hpost := updateKeys_post _ heq
          (by intro j; left; rfl)
        have hmap := updateKeys_map_fst _ hfilter rfl heq
        split at h
        · next hnc =>
            have hacc : acc = ⟨state, [], [], false, false⟩ := by
              refine updateKeys_eq_of_hasChanges_false _ heq ?_
              revert hnc
              cases acc.hasChanges <;> simp
            simp only [Except.ok.injEq, Prod.mk.injEq] at h
            rw [← h.1]
            refine ⟨rfl, ?_, fun k _ => rfl⟩
            intro k hk hkin
            have := hpost.2 k (by
              rw [List.mem_filter]
              exact ⟨hk, hkin⟩)
            rw [hacc] at this
            exact this
        · simp only [Except.ok.injEq, Prod.mk.injEq] at h
          rw [← h.1]
          refine ⟨hmap, ?_, ?_⟩
          · intro k hk hkin
            exact hpost.2 k (by
              rw [List.mem_filter]
              exact ⟨hk, hkin⟩)
          · intro k hkin
            have hkin2 : keyIn acc.nextState k = false := by
              rw [keyIn_eq_decide, hmap, ← keyIn_eq_decide]
              exact hkin
            rw [lookupF_eq_vundefined_of_not_keyIn _ _ hkin2,
                lookupF_eq_vundefined_of_not_keyIn _ _ hkin]

/-- A run of the loop in which every key takes the fast path leaves the
accumulator untouched. -/
theorem updateKeys_all_fast {state newState : Fields} :
    ∀ (ks : List String) (acc : UpdAcc),
      (∀ k ∈ ks, beqV (lookupF state k) (lookupF newState k) = true) →
      updateKeys state newState acc ks = .ok acc := by
  intro ks
  induction ks with
  | nil => intro acc _; rfl
  | cons k ks ih =>
      intro acc hall
      unfold updateKeys
      rw [updateKey_fast (hall k (List.mem_cons_self k ks))]
      exact ih acc (fun k2 hk2 => hall k2 (List.mem_cons_of_mem k hk2))

/-- An update whose keys are all either missing from the state or already
`===` to the stored values succeeds, changes nothing, and reports the empty
change summary. -/
theorem updateState_noop {state newState : Fields} (sp : Option String)
    (hyp : ∀ k ∈ newState.map Prod.fst,
      keyIn state k = false ∨ beqV (lookupF state k) (lookupF newState k) = true) :
    updateState state newState sp = .ok (state, ⟨[], [], false⟩) := by
  simp only [updateState]
  split
  · rfl
  · have hall : ∀ k ∈ (newState.map Prod.fst).filter (fun k => keyIn state k),
        beqV (lookupF state k) (lookupF newState k) = true := by
      intro k hk
      rcases hyp k (List.mem_of_mem_filter hk) with hmiss | hbeq
      · rw [List.of_mem_filter hk] at hmiss
        exact absurd hmiss (by simp)
      · exact hbeq
    rw [updateKeys_all_fast _ _ hall]
    simp

/-- Claim C10: the state update applies only those keys of the update that
already exist as top-level keys of the current state — a key absent from
the state is silently dropped — and when every key is absent or every
applied key is `===` to its stored value, the state snapshot is unchanged,
no computed value is re-evaluated and no notification is scheduled. -/
theorem c10_setState_frame_only_existing_keys
    (state newState : Fields) (silent : Bool) (sp : Option String) :
    (∀ k, keyIn state k = false →
      lookupF (setStateModel state newState silent sp).state k = lookupF state k) ∧
    ((∀ k ∈ newState.map Prod.fst,
        keyIn state k = false ∨ beqV (lookupF state k) (lookupF newState k) = true) →
      updateState state newState sp = .ok (state, ⟨[], [], false⟩) ∧
      setStateModel state newState silent sp = ⟨state, false, false, false⟩) := by
  constructor
  · intro k hk
    cases hupd : updateState state newState sp with
    | error e => simp [setStateModel, hupd]
    | ok pr =>
        obtain ⟨s2, res⟩ := pr
        have hpost := updateState_ok_post hupd
        cases hres : res.changedKeys.isEmpty <;>
          simpa [setStateModel, hupd, hres] using hpost.2.2 k hk
  · intro hyp
    have h := updateState_noop sp hyp
    exact ⟨h, by simp [setStateModel, h]⟩

/-- Witness for claim C10 at a concrete input: updating `{a: 1}` with
`{b: 2}` drops the unknown key `b` and schedules nothing. -/
theorem c10_setState_frame_witness :
    lookupF (setStateModel [("a", .vnum 1)] [("b", .vnum 2)] false none).state "b" =
      lookupF [("a", .vnum 1)] "b" ∧
    setStateModel [("a", .vnum 1)] [("b", .vnum 2)] false none =
      ⟨[("a", .vnum 1)], false, false, false⟩ := by
  have h := c10_setState_frame_only_existing_keys [("a", .vnum 1)] [("b", .vnum 2)] false none
  exact ⟨h.1 "b" (by decide), (h.2 (by decide)).2⟩

/-- Number of notification batches scheduled by two consecutive
`setState(u)` calls with the identical update object `u` (starting from no
pending batch). -/
def notifyCycles (state newState : Fields) : Nat :=
  (if (setStateModel state newState false none).scheduled then 1 else 0) +
  (if (setStateModel (setStateModel state newState false none).state newState false none).scheduled
    then 1 else 0)

/-- Claim C5 (counterexample): calling `setState(u)` twice with identical
`u` does not always produce exactly one notification cycle — when `u`
repeats the values the state already holds, even the first call detects no
effective change, so zero cycles are scheduled. -/
theorem c5_counterexample_no_cycle_on_noop_update :
    notifyCycles [("a", .vnum 1)] [("a", .vnum 1)] ≠ 1 := by
  decide

/-- Claim C5 (amended): two consecutive `setState(u)` calls with the
identical update object schedule at most one notification cycle; the
second call detects no effective change, leaves the state unchanged, and
schedules no notification. -/
theorem c5_second_identical_setState_schedules_nothing (state newState : Fields) :
    (setStateModel (setStateModel state newState false none).state newState false none).scheduled
      = false ∧
    (setStateModel (setStateModel state newState false none).state newState false none).state =
      (setStateModel state newState false none).state ∧
    notifyCycles state newState ≤ 1 := by
  cases hupd : updateState state newState none with
  | error e =>
      have ho1 : setStateModel state newState false none = ⟨state, false, false, true⟩ := by
        simp [setStateModel, hupd]
      refine ⟨?_, ?_, ?_⟩ <;> simp [notifyCycles, ho1, setStateModel, hupd]
  | ok pr =>
      obtain ⟨s2, res⟩ := pr
      by_cases hck : res.changedKeys = []
      · have hs2 : s2 = state := updateState_ok_empty_changed hupd hck
        have ho1 : setStateModel state newState false none = ⟨state, false, false, false⟩ := by
          simp [setStateModel, hupd, hck, hs2]
        refine ⟨?_, ?_, ?_⟩ <;> simp [notifyCycles, ho1, setStateModel, hupd, hck, hs2]
      · have hpost := updateState_ok_post hupd
        have hyp2 : ∀ k ∈ newState.map Prod.fst,
            keyIn s2 k = false ∨ beqV (lookupF s2 k) (lookupF newState k) = true := by
          intro k hk
          by_cases hkin : keyIn state k = true
          · right
            exact hpost.2.1 k hk hkin
          · left
            rw [keyIn_eq_decide, hpost.1, ← keyIn_eq_decide]
            revert hkin
            cases keyIn state k <;> simp
        have h2 := updateState_noop none hyp2
        have ho1 : setStateModel state newState false none = ⟨s2, true, true, false⟩ := by
          simp [setStateModel, hupd, hck]
        have ho2 : setStateModel s2 newState false none = ⟨s2, false, false, false⟩ := by
          simp [setStateModel, h2]
        refine ⟨?_, ?_, ?_⟩ <;> simp [notifyCycles, ho1, ho2]

/-- State of an `LRUCache<K, V>` (`src/state-store/utils/lruCache.ts:36-56`).
The doubly-linked list of nodes is represented by `entries`, ordered from
`head` (most recently used) to `tail` (least recently used) — exactly the
order the source's `keys()`/`values()`/`entries()` report; `cache` (the
backing map) holds the same key set and is not represented separately. -/
structure LRUCache (K V : Type) where
  capacity : Nat
  entries : List (K × V)
  ttl : Option Nat
  timestamps : List (K × Nat)

/-- Constructor of `lruCache.ts:48-56` (the `capacity <= 0` guard throws;
the theorems below assume a positive capacity). -/
def LRUCache.empty {K V : Type} (capacity : Nat) (ttl : Option Nat) : LRUCache K V :=
  ⟨capacity, [], ttl, []⟩

/-- Backing-map membership `this.cache.has(key)`. -/
def LRUCache.cacheHas {K V : Type} [DecidableEq K] (c : LRUCache K V) (key : K) : Bool :=
  c.entries.any (fun p => decide (p.1 = key))

/-- Timestamp update `this.timestamps.set(key, now)`. -/
def tsSet {K : Type} [DecidableEq K] (ts : List (K × Nat)) (key : K) (now : Nat) : List (K × Nat) :=
  if ts.any (fun p => decide (p.1 = key)) then
    ts.map (fun p => if p.1 = key then (key, now) else p)
  else (key, now) :: ts

/-- Timestamp removal `this.timestamps.delete(key)`. -/
def tsDelete {K : Type} [DecidableEq K] (ts : List (K × Nat)) (key : K) : List (K × Nat) :=
  ts.filter (fun p => decide (p.1 ≠ key))

/-- moveToHead of `lruCache.ts:256-285`: detaches the node of `key` and
reattaches it in front of `head` (no-op when it already is the head). -/
def LRUCache.moveToHead {K V : Type} [DecidableEq K] (c : LRUCache K V) (key : K) : LRUCache K V :=
  match c.entries with
  | [] => c
  | e :: _ =>
      if e.1 = key then c
      else
        match c.entries.find? (fun p => decide (p.1 = key)) with
        | none => c
        | some p => { c with entries := p :: c.entries.eraseP (fun q => decide (q.1 = key)) }

/-- delete of `lruCache.ts:168-199`: unlinks the node and clears the map
and timestamp entries. -/
def LRUCache.delete {K V : Type} [DecidableEq K] (c : LRUCache K V) (key : K) : LRUCache K V :=
  if ¬ c.cacheHas key then c
  else { c with entries := c.entries.eraseP (fun q => decide (q.1 = key)),
                timestamps := tsDelete c.timestamps key }

/-- removeTail of `lruCache.ts:290-305`: evicts the least-recently-used
node. -/
def LRUCache.removeTail {K V : Type} [DecidableEq K] (c : LRUCache K V) : LRUCache K V :=
  match c.entries.getLast? with
  | none => c
  | some p => { c with entries := c.entries.dropLast,
                       timestamps := tsDelete c.timestamps p.1 }

/-- get of `lruCache.ts:64-88`: returns `undefined` on a miss, lazily
expires a stale entry when a TTL is configured, otherwise refreshes the
timestamp and promotes the node to most-recently-used.  `now` stands for
`Date.now()` (`now - timestamp` is the source's Number subtraction; model
timestamps never exceed `now`). -/
def LRUCache.get {K V : Type} [DecidableEq K] (c : LRUCache K V) (now : Nat) (key : K) :
    Option V × LRUCache K V :=
  if ¬ c.cacheHas key then (none, c)
  else
    let step : LRUCache K V → Option V × LRUCache K V := fun c1 =>
      -- lruCache.ts:82-87
      let c2 := c1.moveToHead key
      ((c1.entries.find? (fun p => decide (p.1 = key))).map Prod.snd, c2)
    match c.ttl with
    | some ttl =>
        -- lruCache.ts:71-79
        let timestamp := ((c.timestamps.find? (fun p => decide (p.1 = key))).map Prod.snd).getD 0
        if now - timestamp > ttl then (none, c.delete key)
        else step { c with timestamps := tsSet c.timestamps key now }
    | none => step c

/-- set of `lruCache.ts:96-137`: updates and promotes an existing key, or
evicts the tail when at capacity and inserts the new node at the head. -/
def LRUCache.set {K V : Type} [DecidableEq K] (c : LRUCache K V) (now : Nat) (key : K) (v : V) :
    LRUCache K V :=
  if c.cacheHas key then
    -- lruCache.ts:98-110
    let c1 := { c with entries := c.entries.map (fun (p : K × V) => if p.1 = key then (key, v) else p) }
    let c2 := c1.moveToHead key
    if c2.ttl.isSome then { c2 with timestamps := tsSet c2.timestamps key now } else c2
  else
    -- lruCache.ts:113-115
    let c1 := if c.entries.length ≥ c.capacity then c.removeTail else c
    -- lruCache.ts:118-132
    let c2 := { c1 with entries := (key, v) :: c1.entries }
    -- lruCache.ts:134-136
    if c2.ttl.isSome then { c2 with timestamps := tsSet c2.timestamps key now } else c2

/-- keys of `lruCache.ts:311-321`: key list from most- to
least-recently-used. -/
def LRUCache.keysList {K V : Type} (c : LRUCache K V) : List K :=
  c.entries.map Prod.fst

/-- Folding a batch of insertions over a cache. -/
def insertAll {K V : Type} [DecidableEq K] (c : LRUCache K V) (now : Nat) (ps : List (K × V)) :
    LRUCache K V :=
  ps.foldl (fun c1 (p : K × V) => c1.set now p.1 p.2) c

/-- Backing-map membership is list-key membership. -/
theorem cacheHas_eq_decide {K V : Type} [DecidableEq K] (c : LRUCache K V) (k : K) :
    c.cacheHas k = decide (k ∈ c.entries.map Prod.fst) := by
  show (c.entries.any fun p => decide (p.1 = k)) = decide (k ∈ c.entries.map Prod.fst)
  induction c.entries with
  | nil => rfl
  | cons p rest ih =>
      by_cases hk : p.1 = k
      · simp [hk]
      · simp only [List.any_cons, List.map_cons, List.mem_cons, ih]
        simp [hk, Ne.symm hk]

/-- Inserting a fresh key into a cache with free room conses the entry and
touches nothing else. -/
theorem set_fresh {K V : Type} [DecidableEq K] {c : LRUCache K V} (now : Nat) {k : K} (v : V)
    (hmiss : c.cacheHas k = false) (hroom : c.entries.length < c.capacity) :
    (c.set now k v).entries = (k, v) :: c.entries ∧
    (c.set now k v).capacity = c.capacity ∧
    (c.set now k v).ttl = c.ttl := by
  unfold LRUCache.set
  rw [hmiss]
  have hge : (c.entries.length ≥ c.capacity) = False := by
    simp only [ge_iff_le, eq_iff_iff, iff_false, not_le]
    exact hroom
  simp only [Bool.false_eq_true, if_false, hge]
  cases hts : c.ttl <;> simp [hts]

/-- Inserting fresh, pairwise-distinct keys while the cache has room
prepends them in reverse insertion order. -/
theorem insertAll_fresh {K V : Type} [DecidableEq K] :
    ∀ (ps : List (K × V)) (c : LRUCache K V) (now : Nat),
      (ps.map Prod.fst).Nodup →
      (∀ k ∈ ps.map Prod.fst, k ∉ c.entries.map Prod.fst) →
      c.entries.length + ps.length ≤ c.capacity →
      (insertAll c now ps).entries = ps.reverse ++ c.entries ∧
      (insertAll c now ps).capacity = c.capacity ∧
      (insertAll c now ps).ttl = c.ttl := by
  intro ps
  induction ps with
  | nil =>
      intro c now _ _ _
      exact ⟨by simp [insertAll], rfl, rfl⟩
  | cons p ps ih =>
      intro c now hnodup hfresh hroom
      have hmiss : c.cacheHas p.1 = false := by
        rw [cacheHas_eq_decide]
        simpa using hfresh p.1 (by simp)
      have hroom1 : c.entries.length < c.capacity := by
        simp only [List.length_cons] at hroom
        omega
      obtain ⟨he, hcap, httl⟩ := set_fresh now p.2 hmiss hroom1
      have hstep : insertAll c now (p :: ps) = insertAll (c.set now p.1 p.2) now ps := by
        simp [insertAll]
      rw [hstep]
      have hnodup2 : (ps.map Prod.fst).Nodup := (List.nodup_cons.mp (by simpa using hnodup)).2
      have hfresh2 : ∀ k ∈ ps.map Prod.fst, k ∉ (c.set now p.1 p.2).entries.map Prod.fst := by
        intro k hk
        rw [he]
        simp only [List.map_cons, List.mem_cons]
        rintro (rfl | hmem)
        · exact (List.nodup_cons.mp (by simpa using hnodup)).1 hk
        · exact hfresh k (by simp [hk]) hmem
      have hroom2 : (c.set now p.1 p.2).entries.length + ps.length ≤ (c.set now p.1 p.2).capacity := by
        rw [he, hcap]
        simp only [List.length_cons]
        simp only [List.length_cons] at hroom
        omega
      obtain ⟨he2, hcap2, httl2⟩ := ih (c.set now p.1 p.2) now hnodup2 hfresh2 hroom2
      refine ⟨?_, by rw [hcap2, hcap], by rw [httl2, httl]⟩
      rw [he2, he]
      simp

/-- Dropping the oldest element of a reversed list is reversing the tail. -/
theorem dropLast_reverse_eq {α : Type} (l : List α) :
    l.reverse.dropLast = (l.drop 1).reverse := by
  cases l with
  | nil => rfl
  | cons x t =>
      simp only [List.reverse_cons, List.dropLast_concat, List.drop_one, List.tail_cons]

/-- Inserting a fresh key into a full cache evicts the tail entry and
conses the new entry. -/
theorem set_fresh_full {K V : Type} [DecidableEq K] {c : LRUCache K V} (now : Nat) {k : K} (v : V)
    (hmiss : c.cacheHas k = false) (hfull : c.entries.length ≥ c.capacity) (httl : c.ttl = none) :
    (c.set now k v).entries = (k, v) :: c.entries.dropLast := by
  unfold LRUCache.set
  rw [hmiss]
  have hge : (c.entries.length ≥ c.capacity) = True := by
    simp only [ge_iff_le, eq_iff_iff, iff_true]
    exact hfull
  simp only [Bool.false_eq_true, if_false, hge, if_true]
  unfold LRUCache.removeTail
  cases hlast : c.entries.getLast? with
  | none =>
      have : c.entries = [] := by
        rwa [List.getLast?_eq_none_iff] at hlast
      simp [httl, this]
  | some p => simp [httl]

/-- Filling an empty LRU cache of capacity `cap` with `cap + 1` distinct
keys evicts exactly the first-inserted key. -/
theorem lru_fill_evicts_first {K V : Type} [DecidableEq K]
    (cap now : Nat) (ps : List (K × V))
    (hcap : 0 < cap) (hlen : ps.length = cap + 1) (hnodup : (ps.map Prod.fst).Nodup) :
    (insertAll (LRUCache.empty cap none) now ps).keysList = ((ps.drop 1).map Prod.fst).reverse := by
  have hsplit : ps = ps.take cap ++ ps.drop cap := (List.take_append_drop cap ps).symm
  have hdrop : ∃ plast, ps.drop cap = [plast] := by
    have h1 : (ps.drop cap).length = 1 := by
      rw [List.length_drop, hlen]
      omega
    cases hd : ps.drop cap with
    | nil => rw [hd] at h1; simp at h1
    | cons a l =>
        rw [hd] at h1
        simp only [List.length_cons] at h1
        have : l = [] := by
          cases l with
          | nil => rfl
          | cons b m => simp at h1
        exact ⟨a, by rw [this]⟩
  obtain ⟨plast, hplast⟩ := hdrop
  have htake_nodup : ((ps.take cap).map Prod.fst).Nodup := by
    rw [List.map_take]
    exact hnodup.sublist (List.take_sublist cap _)
  have htake_len : (ps.take cap).length = cap := by
    rw [List.length_take, hlen]
    omega
  obtain ⟨hfe, hfcap, hfttl⟩ := insertAll_fresh (ps.take cap) (LRUCache.empty cap none) now
    htake_nodup (by intro k2 _; simp [LRUCache.empty]) (by simp [LRUCache.empty, htake_len])
  have hfe2 : (insertAll (LRUCache.empty cap none) now (ps.take cap)).entries =
      (ps.take cap).reverse := by
    rw [hfe]
    simp [LRUCache.empty]
  have hlast_fresh :
      (insertAll (LRUCache.empty cap none) now (ps.take cap)).cacheHas plast.1 = false := by
    rw [cacheHas_eq_decide, hfe2]
    have hmem : plast.1 ∉ ((ps.take cap).map Prod.fst) := by
      have hps_nodup := hnodup
      rw [hsplit, hplast] at hps_nodup
      simp only [List.map_append, List.nodup_append] at hps_nodup
      intro hmem
      exact hps_nodup.2.2 hmem (by simp)
    simp only [List.map_reverse, decide_eq_false_iff_not, List.mem_reverse]
    exact hmem
  have hatcap : (insertAll (LRUCache.empty cap none) now (ps.take cap)).entries.length ≥
      (insertAll (LRUCache.empty cap none) now (ps.take cap)).capacity := by
    rw [hfe2, hfcap]
    simp [LRUCache.empty, htake_len]
  have hfinal : insertAll (LRUCache.empty cap none) now ps =
      (insertAll (LRUCache.empty cap none) now (ps.take cap)).set now plast.1 plast.2 := by
    conv_lhs => rw [hsplit, hplast]
    simp [insertAll]
  have hset := set_fresh_full now plast.2 hlast_fresh hatcap hfttl
  rw [hfinal]
  unfold LRUCache.keysList
  rw [hset, hfe2, dropLast_reverse_eq]
  have hdrop1 : ps.drop 1 = (ps.take cap).drop 1 ++ [plast] := by
    conv_lhs => rw [hsplit, hplast]
    rw [List.drop_append_of_le_length]
    rw [htake_len]
    omega
  rw [hdrop1]
  simp

/-- Promotion does not change the configured capacity. -/
theorem moveToHead_capacity {K V : Type} [DecidableEq K] (c : LRUCache K V) (k : K) :
    (c.moveToHead k).capacity = c.capacity := by
  unfold LRUCache.moveToHead
  split
  · rfl
  · split
    · rfl
    · split <;> rfl

/-- Promotion does not change the configured TTL. -/
theorem moveToHead_ttl {K V : Type} [DecidableEq K] (c : LRUCache K V) (k : K) :
    (c.moveToHead k).ttl = c.ttl := by
  unfold LRUCache.moveToHead
  split
  · rfl
  · split
    · rfl
    · split <;> rfl

/-- On a full cache, a `get` promotes the accessed tail key, so the next
insertion past capacity evicts the previously second-oldest key instead of
the accessed one. -/
theorem lru_get_promotes {K V : Type} [DecidableEq K]
    (now : Nat) (c : LRUCache K V) (es : List (K × V)) (k j : K) (v w : V)
    (hc : c.entries = es ++ [(k, v)]) (hkes : k ∉ es.map Prod.fst)
    (hj : j ∉ c.entries.map Prod.fst) (hfull : c.entries.length = c.capacity)
    (hne : es ≠ []) (httl : c.ttl = none) :
    (c.set now j w).keysList = j :: es.map Prod.fst ∧
    k ∉ (c.set now j w).keysList ∧
    ((c.get now k).2.set now j w).keysList = j :: k :: es.dropLast.map Prod.fst := by
  have hjk : j ≠ k := by
    intro hjk
    apply hj
    rw [hc, hjk]
    simp
  have hjes : j ∉ es.map Prod.fst := by
    intro hmem
    apply hj
    rw [hc]
    simp [hmem]
  have hmissj : c.cacheHas j = false := by
    rw [cacheHas_eq_decide]
    simpa using hj
  -- without the `get`: the tail entry (k, v) is evicted
  have hset1 : (c.set now j w).entries = (j, w) :: es := by
    rw [set_fresh_full now w hmissj (le_of_eq hfull.symm) httl, hc, List.dropLast_concat]
  constructor
  · unfold LRUCache.keysList
    rw [hset1]
    rfl
  constructor
  · unfold LRUCache.keysList
    rw [hset1]
    simp only [List.map_cons, List.mem_cons]
    rintro (rfl | hmem)
    · exact hjk rfl
    · exact hkes hmem
  -- with the `get`: k moves to the head first
  · have hhit : c.cacheHas k = true := by
      rw [cacheHas_eq_decide, hc]
      simp
    have hfind : c.entries.find? (fun p => decide (p.1 = k)) = some (k, v) := by
      rw [hc, List.find?_append]
      have hnone : es.find? (fun p => decide (p.1 = k)) = none := by
        rw [List.find?_eq_none]
        intro p hp
        simp only [decide_eq_true_eq]
        intro hpk
        exact hkes (by rw [← hpk]; exact List.mem_map_of_mem Prod.fst hp)
      rw [hnone]
      simp
    have herase : c.entries.eraseP (fun q => decide (q.1 = k)) = es := by
      rw [hc, List.eraseP_append_right]
      · simp
      · intro b hb
        simp only [decide_eq_true_eq]
        intro hbk
        exact hkes (by rw [← hbk]; exact List.mem_map_of_mem Prod.fst hb)
    have hmove : (c.moveToHead k).entries = (k, v) :: es := by
      unfold LRUCache.moveToHead
      obtain ⟨e0, es2, hes⟩ : ∃ e0 es2, es = e0 :: es2 := by
        cases es with
        | nil => exact absurd rfl hne
        | cons a l => exact ⟨a, l, rfl⟩
      have hc2 : c.entries = e0 :: (es2 ++ [(k, v)]) := by
        rw [hc, hes]
        rfl
      rw [hc2]
      have he0 : ¬ e0.1 = k := by
        intro h0
        exact hkes (by rw [hes, ← h0]; simp)
      simp only [he0, if_false]
      rw [← hc2, hfind, herase]
    have hget : (c.get now k).2.entries = (k, v) :: es ∧
        (c.get now k).2.capacity = c.capacity ∧ (c.get now k).2.ttl = none := by
      unfold LRUCache.get
      rw [hhit, httl]
      simp only [Bool.true_eq_false, not_true_eq_false, Bool.false_eq_true, if_false]
      refine ⟨hmove, moveToHead_capacity c k, ?_⟩
      rw [moveToHead_ttl]
      exact httl
    obtain ⟨hge, hgcap, hgttl⟩ := hget
    have hmissj2 : (c.get now k).2.cacheHas j = false := by
      rw [cacheHas_eq_decide, hge]
      simp only [List.map_cons, List.mem_cons, decide_eq_false_iff_not]
      rintro (rfl | hmem)
      · exact hjk rfl
      · exact hjes hmem
    have hfull2 : (c.get now k).2.entries.length ≥ (c.get now k).2.capacity := by
      rw [hge, hgcap, ← hfull, hc]
      simp
    have hset2 := set_fresh_full now w hmissj2 hfull2 hgttl
    unfold LRUCache.keysList
    rw [hset2, hge]
    obtain ⟨es2, plast, hes2⟩ : ∃ es2 plast, es = es2 ++ [plast] := by
      rcases List.eq_nil_or_concat es with hnil | ⟨l2, b, hcon⟩
      · exact absurd hnil hne
      · exact ⟨l2, b, by rw [hcon, List.concat_eq_append]⟩
    rw [hes2]
    have : ((k, v) :: (es2 ++ [plast])).dropLast = (k, v) :: es2 := by
      rw [show (k, v) :: (es2 ++ [plast]) = ((k, v) :: es2) ++ [plast] by rfl,
          List.dropLast_concat]
    rw [this, List.dropLast_concat]
    rfl

/-- Claim C8: inserting `capacity + 1` distinct keys into an empty LRU
cache evicts exactly the least-recently-used (first-inserted) key and no
other, keeping the rest in most-recently-used-first order; and a `get` on a
present, non-expired key promotes that key to most-recently-used, changing
which key a subsequent insertion past capacity evicts (the previously
second-least-recently-used key is evicted instead of the accessed one). -/
theorem c8_lru_eviction_and_promotion {K V : Type} [DecidableEq K]
    (cap now : Nat) (ps : List (K × V)) (c : LRUCache K V) (es : List (K × V))
    (k j : K) (v w : V)
    (hcap : 0 < cap) (hlen : ps.length = cap + 1) (hnodup : (ps.map Prod.fst).Nodup)
    (hc : c.entries = es ++ [(k, v)]) (hkes : k ∉ es.map Prod.fst)
    (hj : j ∉ c.entries.map Prod.fst) (hfull : c.entries.length = c.capacity)
    (hne : es ≠ []) (httl : c.ttl = none) :
    (insertAll (LRUCache.empty cap none) now ps).keysList = ((ps.drop 1).map Prod.fst).reverse ∧
    ((c.set now j w).keysList = j :: es.map Prod.fst ∧
     k ∉ (c.set now j w).keysList ∧
     ((c.get now k).2.set now j w).keysList = j :: k :: es.dropLast.map Prod.fst) :=
  ⟨lru_fill_evicts_first cap now ps hcap hlen hnodup,
   lru_get_promotes now c es k j v w hc hkes hj hfull hne httl⟩

/-- Witness for claim C8: capacity 2, inserting keys 1, 2, 3 evicts key 1;
and on the full cache `[(2, 20), (1, 10)]` a `get 1` makes the subsequent
insertion of key 3 evict key 2 instead of key 1. -/
theorem c8_lru_witness :
    (insertAll (LRUCache.empty 2 none) 0 [(1, 10), (2, 20), (3, 30)] : LRUCache Nat Nat).keysList
      = [3, 2] ∧
    ((⟨2, [(2, 20), (1, 10)], none, []⟩ : LRUCache Nat Nat).set 0 3 30).keysList = [3, 2] ∧
    1 ∉ ((⟨2, [(2, 20), (1, 10)], none, []⟩ : LRUCache Nat Nat).set 0 3 30).keysList ∧
    (((⟨2, [(2, 20), (1, 10)], none, []⟩ : LRUCache Nat Nat).get 0 1).2.set 0 3 30).keysList
      = [3, 1] :=
  ⟨(c8_lru_eviction_and_promotion 2 0 [(1, 10), (2, 20), (3, 30)]
      (⟨2, [(2, 20), (1, 10)], none, []⟩ : LRUCache Nat Nat) [(2, 20)] 1 3 10 30
      (by decide) (by decide) (by decide) rfl (by decide) (by decide) rfl
      (by decide) rfl).1,
   (c8_lru_eviction_and_promotion 2 0 [(1, 10), (2, 20), (3, 30)]
      (⟨2, [(2, 20), (1, 10)], none, []⟩ : LRUCache Nat Nat) [(2, 20)] 1 3 10 30
      (by decide) (by decide) (by decide) rfl (by decide) (by decide) rfl
      (by decide) rfl).2⟩

/-- Primitive values in the heap model used for `deepEqual`. -/
inductive HPrim where
  | hnull
  | hundefined
  | hnum (n : Int)
  | hstr (s : String)
  | hbool (b : Bool)
  deriving DecidableEq

/-- A value in the heap model: a primitive or a reference to a heap
address.  Unlike the tree model `JSValue`, this representation admits
self-referential (cyclic) object graphs, which `deepEqual` must handle. -/
inductive HVal where
  | prim (p : HPrim)
  | ref (addr : Nat)
  deriving DecidableEq

/-- A heap object: plain object or array.  The exotic classes the source
additionally recognises (Date, RegExp, Map, Set, Error, Promise, WeakMap,
WeakSet) never occur in state values and are not representable; their
comparison branches collapse into the two below plus the default
`result = false` case. -/
inductive HObj where
  | obj (fields : List (String × HVal))
  | arr (elems : List HVal)

/-- A JavaScript heap: a finite map from addresses to objects (dangling
references read as the empty object; the embedded examples are closed). -/
structure Heap where
  objs : List (Nat × HObj)

/-- Dereference an address. -/
def Heap.lookup (h : Heap) (addr : Nat) : HObj :=
  match h.objs.find? (fun p => p.1 == addr) with
  | some p => p.2
  | none => .obj []

/-- Strict equality `===` in the heap model: primitives by value,
references by address. -/
def refEqH : HVal → HVal → Bool
  | .prim p, .prim q => p == q
  | .ref i, .ref j => i == j
  | _, _ => false

/-- Loose `value == null` (matches both `null` and `undefined`). -/
def isNullish : HVal → Bool
  | .prim .hnull => true
  | .prim .hundefined => true
  | _ => false

/-- JavaScript `typeof` in the heap model (`typeof null === 'object'`). -/
def typeofH : HVal → String
  | .prim .hnull => "object"
  | .prim .hundefined => "undefined"
  | .prim (.hnum _) => "number"
  | .prim (.hstr _) => "string"
  | .prim (.hbool _) => "boolean"
  | .ref _ => "object"

/-- The seen-pairs map threaded through `deepEqual`
(`objectTraversal.ts:10`): the set of object pairs currently being
compared.  The source's `WeakMap<object, WeakMap<object, boolean>>` keyed
by the two objects is a set of address pairs. -/
abbrev VisitedM := List (Nat × Nat)

/-- The comparison result cache (`compare.ts:50`), keyed by the id pair of
the compared objects.  The source backs it with an `LRUCache` with TTL;
within a single comparison no entry expires and the capacity (≥ 200) is
never reached, so a plain association list models the probes exactly. -/
abbrev CacheM := List ((Nat × Nat) × Bool)

/-- detectCycle of `src/state-store/utils/objectTraversal.ts:26-43`:
reports whether the pair is already being compared, and records it
otherwise. -/
def detectCycleH (visited : VisitedM) (i j : Nat) : Bool × VisitedM :=
  if visited.contains (i, j) then (true, visited)
  else (false, (i, j) :: visited)

/-- createCacheKey of `compare.ts:70-75`: an order-normalised id pair (the
source renders it as the string `"idA:idB"` with the smaller id first). -/
def createCacheKey (i j : Nat) : Nat × Nat :=
  if i < j then (i, j) else (j, i)

/-- MAX_COMPARE_DEPTH of `compare.ts:78`. -/
def MAX_COMPARE_DEPTH : Nat := 100

/-- Test used by the large-primitive-array fast path (`compare.ts:245-247`:
`item === null || typeof item !== 'object'`). -/
def isPrimVal : HVal → Bool
  | .prim _ => true
  | .ref _ => false

/-- JSON rendering of one primitive array element as `JSON.stringify`
produces it (`undefined` serialises as `null` inside arrays). -/
def jsonOfPrimVal : HVal → String
  | .prim .hnull => "null"
  | .prim .hundefined => "null"
  | .prim (.hnum n) => toString n
  | .prim (.hstr s) => "\x22" ++ s ++ "\x22"
  | .prim (.hbool b) => if b then "true" else "false"
  | .ref _ => ""

/-- `JSON.stringify` of a primitive-only array (`compare.ts:248`). -/
def jsonStringifyArr (elems : List HVal) : String :=
  "[" ++ String.intercalate "," (elems.map jsonOfPrimVal) ++ "]"

/-- Field read `obj[key]` in the heap model. -/
def hGetField (fields : List (String × HVal)) (key : String) : HVal :=
  match fields.find? (fun p => p.1 == key) with
  | some p => p.2
  | none => .prim .hundefined

mutual

/-- deepEqual of `src/state-store/utils/compare.ts:119-314`.  The steps of
the source are kept in order: (1) `===` fast path, (2) nullish check,
(3) non-object comparison, (4) depth bound, (5-7) immer-draft unwrapping
(the identity here: no drafts exist in the model), (8) cycle detection via
the seen-pairs map, then the cache probe, the per-type comparison and the
result caching.  The threaded `visited`/`cache` state models the mutation
of the seen-pairs map and of the module-level result cache. -/
def deepEqualH (h : Heap) (a b : HVal) (depth : Nat) (visited : VisitedM) (cache : CacheM) :
    Bool × VisitedM × CacheM :=
  if refEqH a b then (true, visited, cache)
  else if isNullish a || isNullish b then (false, visited, cache)
  else if typeofH a != "object" || typeofH b != "object" then (refEqH a b, visited, cache)
  else if depth > MAX_COMPARE_DEPTH then (false, visited, cache)
  else
    match a, b with
    | .ref ia, .ref ib =>
        match detectCycleH visited ia ib with
        | (true, visited2) => (true, visited2, cache)
        | (false, visited2) =>
            let ckey := createCacheKey ia ib
            match cache.find? (fun e => e.1 == ckey) with
            | some e => (e.2, visited2, cache)
            | none =>
                match deepEqualObj h (h.lookup ia) (h.lookup ib) (depth + 1) visited2 cache with
                | (result, visited3, cache3) => (result, visited3, (ckey, result) :: cache3)
    | _, _ => (refEqH a b, visited, cache)
termination_by (102 - depth, 0, 0)
decreasing_by
  simp_wf
  simp only [MAX_COMPARE_DEPTH] at *
  apply Prod.Lex.left
  omega

/-- Per-type comparison of two dereferenced objects (`compare.ts:170-304`),
specialised to the representable types `array` and `object`; `depth` is
already the children's depth (the source passes `depth + 1` at every
recursive `deepEqual` call).  A type mismatch yields `false`
(`compare.ts:175-176`). -/
def deepEqualObj (h : Heap) (oa ob : HObj) (depth : Nat) (visited : VisitedM) (cache : CacheM) :
    Bool × VisitedM × CacheM :=
  match oa, ob with
  | .arr as, .arr bs =>
      -- compare.ts:226-260
      if as.length != bs.length then (false, visited, cache)
      else if as.length == 0 then (true, visited, cache)
      else if as.length < 20 then deepEqualListH h as bs depth visited cache
      else if as.all isPrimVal && bs.all isPrimVal then
        (jsonStringifyArr as == jsonStringifyArr bs, visited, cache)
      else
        -- the general loop's `===`-continue is the recursive call's step 1
        deepEqualListH h as bs depth visited cache
  | .obj fa, .obj fb =>
      -- compare.ts:262-296
      let keysA := fa.map Prod.fst
      let keysB := fb.map Prod.fst
      if keysA.length != keysB.length then (false, visited, cache)
      else if keysA.length == 0 then (true, visited, cache)
      else if keysA.length < 10 then deepEqualFieldsH h keysA fa fb depth visited cache
      else if keysA.any (fun k => ¬ keysB.contains k) then (false, visited, cache)
      else deepEqualFieldsH h keysA fa fb depth visited cache
  | _, _ => (false, visited, cache)
termination_by (102 - depth, 2, 0)

/-- Element-wise comparison of two arrays (`compare.ts:237-241,250-257`),
threading the seen-pairs map and the cache, stopping at the first
difference. -/
def deepEqualListH (h : Heap) (as2 bs : List HVal) (depth : Nat) (visited : VisitedM)
    (cache : CacheM) : Bool × VisitedM × CacheM :=
  match as2, bs with
  | [], _ => (true, visited, cache)
  | _ :: _, [] => (true, visited, cache)
  | a1 :: as3, b1 :: bs2 =>
      match deepEqualH h a1 b1 depth visited cache with
      | (false, visited2, cache2) => (false, visited2, cache2)
      | (true, visited2, cache2) => deepEqualListH h as3 bs2 depth visited2 cache2
termination_by (102 - depth, 1, as2.length)

/-- Key-wise comparison of two plain objects over `keysA`
(`compare.ts:274-292`, including `compareObjectValues`), with the
`hasOwnProperty` test on the right object, stopping at the first
difference. -/
def deepEqualFieldsH (h : Heap) (keys : List String) (fa fb : List (String × HVal)) (depth : Nat)
    (visited : VisitedM) (cache : CacheM) : Bool × VisitedM × CacheM :=
  match keys with
  | [] => (true, visited, cache)
  | k :: ks =>
      if ¬ fb.any (fun p => p.1 == k) then (false, visited, cache)
      else
        match deepEqualH h (hGetField fa k) (hGetField fb k) depth visited cache with
        | (false, visited2, cache2) => (false, visited2, cache2)
        | (true, visited2, cache2) => deepEqualFieldsH h ks fa fb depth visited2 cache2
termination_by (102 - depth, 1, keys.length)

end

/-- Concrete self-referential heap: address 0 holds `x` with `x.self = x`,
address 1 holds `y` with `y.self = y`. -/
def cyclicHeap : Heap := ⟨[(0, .obj [("self", .ref 0)]), (1, .obj [("self", .ref 1)])]⟩

/-- Claim C9: `deepEqual` is total on every pair of heap values, including
self-referential ones (it is a Lean function, hence terminates and returns
a boolean without throwing); once the recursion depth exceeds the bound of
100 an object pair is reported not equal; and a pair of objects already
being compared (present in the seen-pairs map) is reported equal, which
closes cycles — as the concrete comparison of the two self-referential
objects shows. -/
theorem c9_deepEqual_depth_bound_and_cycles :
    (∀ (h : Heap) (a b : HVal) (depth : Nat) (visited : VisitedM) (cache : CacheM),
      refEqH a b = false → isNullish a = false → isNullish b = false →
      typeofH a = "object" → typeofH b = "object" → depth > 100 →
      (deepEqualH h a b depth visited cache).1 = false) ∧
    (∀ (h : Heap) (ia ib depth : Nat) (visited : VisitedM) (cache : CacheM),
      ia ≠ ib → depth ≤ 100 → (ia, ib) ∈ visited →
      (deepEqualH h (.ref ia) (.ref ib) depth visited cache).1 = true) ∧
    (deepEqualH cyclicHeap (.ref 0) (.ref 1) 0 [] []).1 = true := by
  refine ⟨?_, ?_, ?_⟩
  · intro h a b depth visited cache h1 h2 h3 h4 h5 h6
    unfold deepEqualH
    simp [h1, h2, h3, h4, h5, MAX_COMPARE_DEPTH, h6]
  · intro h ia ib depth visited cache hne hd hmem
    unfold deepEqualH
    have h1 : refEqH (HVal.ref ia) (HVal.ref ib) = false := by
      simpa [refEqH] using hne
    have hnotgt : ¬ depth > MAX_COMPARE_DEPTH := by
      simp only [MAX_COMPARE_DEPTH]
      omega
    have hcyc : detectCycleH visited ia ib = (true, visited) := by
      unfold detectCycleH
      simp [hmem]
    simp [h1, isNullish, typeofH, hnotgt, hcyc]
  · simp [deepEqualH, deepEqualObj, deepEqualFieldsH, deepEqualListH, detectCycleH,
          createCacheKey, refEqH, isNullish, typeofH, MAX_COMPARE_DEPTH, Heap.lookup,
          hGetField, cyclicHeap]

/-- Witness for claim C9: past the depth bound the self-referential pair
compares unequal; with the pair recorded as in-progress it compares equal
at admissible depth. -/
theorem c9_deepEqual_witness :
    (deepEqualH cyclicHeap (.ref 0) (.ref 1) 101 [] []).1 = false ∧
    (deepEqualH cyclicHeap (.ref 0) (.ref 1) 5 [(0, 1)] []).1 = true :=
  ⟨c9_deepEqual_depth_bound_and_cycles.1 cyclicHeap (.ref 0) (.ref 1) 101 [] []
     (by decide) (by decide) (by decide) rfl rfl (by omega),
   c9_deepEqual_depth_bound_and_cycles.2.1 cyclicHeap 0 1 5 [(0, 1)] []
     (by decide) (by omega) (by decide)⟩

/-- One observable action of a selector or computed function while it runs
against the tracking proxy: a property-chain read on the state parameter,
or an exception raised by the function itself.  A selector — an opaque
function — is embedded by its access trace, the only part of it the proxy
can observe. -/
inductive SelAccess where
  | read (chain : List String)
  | throwErr

/-- Special property names the tracking proxy passes through without
recording (`src/state-store/core/internal/AsyncActionManager.ts:622-631`;
symbol keys are not representable). -/
def isSpecialProp (key : String) : Bool :=
  key == "__proto__" || key == "constructor" || key == "prototype" ||
  key.startsWith "__" || key == "console"

/-- Run of a selector trace against `createTrackingProxy({}, deps)`
(`AsyncActionManager.ts:566-662` applied to the empty virtual state of
`trackDependencies`, line 675).  Reading a top-level key on the empty
state records the key (the base path is empty, so the recorded path is the
key itself, line 635) and returns `undefined`; continuing a chain on
`undefined` throws a TypeError, which ends the run with the dependencies
collected so far (a chain into a special pass-through property records
nothing; a run that would throw there is represented by a trace ending in
`throwErr`).  Returns the collected dependency set and whether the run
ended in an exception. -/
def runSelectorOnEmptyProxy : List SelAccess → List String → List String × Bool
  | [], deps => (deps, false)
  | .throwErr :: _, deps => (deps, true)
  | .read chain :: rest, deps =>
      match chain with
      | [] => runSelectorOnEmptyProxy rest deps
      | k :: krest =>
          if isSpecialProp k then runSelectorOnEmptyProxy rest deps
          else
            let deps2 := insertSet deps k
            if krest.isEmpty then runSelectorOnEmptyProxy rest deps2
            else (deps2, true)

/-- trackDependencies of
`src/state-store/core/internal/AsyncActionManager.ts:669-703`
(`DependencyTracker`): the selector runs against a tracking proxy over an
empty state; an exception inside the selector is swallowed and the
partially collected dependencies are kept (lines 679-684); an empty
dependency set is promoted to the full-state wildcard (lines 693-695).
The outer catch (line 698-702), reachable only if the tracking machinery
itself fails, also falls back to the wildcard. -/
def trackDependencies (steps : List SelAccess) : List String :=
  let dependencies := (runSelectorOnEmptyProxy steps []).1
  if dependencies.isEmpty then ["*"] else dependencies

/-- Dependency discovery of one computed function,
`src/state-store/core/internal/state/ComputedManager.ts:92-156`
(`buildComputedDependencyGraph` body): the computed function runs against a
tracking proxy over a virtual state; if it throws, the wildcard is added to
the partially collected set (lines 129-148); if the set is still empty the
wildcard is added (lines 151-153). -/
def buildComputedDeps (steps : List SelAccess) : List String :=
  let run := runSelectorOnEmptyProxy steps []
  let dependencies := if run.2 then insertSet run.1 "*" else run.1
  if dependencies.isEmpty then insertSet dependencies "*" else dependencies

/-- Claim C7: dependency discovery never yields an empty dependency set —
for every selector trace the tracker keeps the partially collected
dependencies when the run throws, promotes an empty result to the wildcard
`*`, and therefore always returns a non-empty list; the computed-value
discovery is likewise never empty. -/
theorem c7_dependency_discovery_never_empty (steps : List SelAccess) :
    trackDependencies steps ≠ [] ∧
    buildComputedDeps steps ≠ [] ∧
    ((runSelectorOnEmptyProxy steps []).1 = [] → trackDependencies steps = ["*"]) ∧
    ((runSelectorOnEmptyProxy steps []).1 ≠ [] →
      trackDependencies steps = (runSelectorOnEmptyProxy steps []).1) := by
  refine ⟨?_, ?_, ?_, ?_⟩
  · simp only [trackDependencies]
    split
    · simp
    · next hne => simpa using hne
  · simp only [buildComputedDeps]
    split
    · split
      · exact insertSet_ne_nil _ _
      · exact insertSet_ne_nil _ _
    · split
      · exact insertSet_ne_nil _ _
      · next hne => simpa using hne
  · intro hnil
    simp only [trackDependencies]
    simp [hnil]
  · intro hne
    simp only [trackDependencies, List.isEmpty_iff]
    split
    · next hemp => exact absurd hemp hne
    · rfl

/-- Witness for claim C7: a selector that reads nothing depends on `*`; a
selector that throws while reading `state.a.b` keeps the partial set
`["a"]`. -/
theorem c7_dependency_discovery_witness :
    trackDependencies [] = ["*"] ∧
    trackDependencies [.read ["a", "b"]] = ["a"] ∧
    buildComputedDeps [.read ["a", "b"]] = ["a", "*"] :=
  ⟨(c7_dependency_discovery_never_empty []).2.2.1 rfl,
   (c7_dependency_discovery_never_empty [.read ["a", "b"]]).2.2.2 (by decide),
   by decide⟩

/-- Subscriber record of `src/state-store/utils/objectTraversal.ts:127-135`.
The callback function is not represented: the notification theorems are
about which subscribers fire, and callbacks never throw in the embedded
scenarios. -/
structure Subscriber where
  id : String
  priority : Int
  throttle : Option Nat
  lastExecuted : Option Nat
  active : Bool
  dependencyPaths : List String

/-- Wildcard kinds, `SINGLE_LEVEL_WILDCARD`/`MULTI_LEVEL_WILDCARD`
(`objectTraversal.ts:138-139`). -/
inductive WildcardType where
  | singleLevel
  | multiLevel
  deriving DecidableEq

/-- Entry of the wildcard subscriber map (`objectTraversal.ts:158-164`). -/
structure WildcardInfo where
  type : WildcardType
  parentPath : String

/-- Trie node (`objectTraversal.ts:142-147`).  The node-stored subscriber
objects are aliased with the registry entries in the source; they are
represented by their ids, and reading a field of a stored subscriber is a
registry lookup. -/
inductive TreeNode where
  | mk (subscribers : List String)
       (children : List (String × TreeNode))
       (singleLevelWildcardNode : Option TreeNode)
       (multiLevelWildcardNode : Option TreeNode)

/-- Subscribers registered exactly at this node. -/
def TreeNode.subs : TreeNode → List String
  | .mk s _ _ _ => s

/-- Child-node map keyed by concrete segment. -/
def TreeNode.children : TreeNode → List (String × TreeNode)
  | .mk _ c _ _ => c

/-- The optional single-level-wildcard child. -/
def TreeNode.slw : TreeNode → Option TreeNode
  | .mk _ _ s _ => s

/-- The optional multi-level-wildcard child. -/
def TreeNode.mlw : TreeNode → Option TreeNode
  | .mk _ _ _ m => m

/-- createNode (`objectTraversal.ts:197-202`). -/
def createNode : TreeNode := .mk [] [] none none

/-- Scanner for `path.replace(/\[(\d+)]/g, '.$1')`
(`objectTraversal.ts:212`): `pending = some ds` means a `[` followed by the
digit run `ds` has been read and awaits the closing `]`; a completed
`[digits]` group is emitted as `.digits`, a failed candidate is emitted
literally (re-dispatching on the failing character, which may itself open a
new group), exactly as the left-to-right regex scan behaves. -/
def normalizeBracketsGo (pending : Option (List Char)) : List Char → List Char
  | [] =>
      match pending with
      | none => []
      | some ds => '[' :: ds
  | c :: rest =>
      match pending with
      | none =>
          if c = '[' then normalizeBracketsGo (some []) rest
          else c :: normalizeBracketsGo none rest
      | some ds =>
          if c.isDigit then normalizeBracketsGo (some (ds ++ [c])) rest
          else if c = ']' ∧ ds ≠ [] then
            '.' :: ds ++ normalizeBracketsGo none rest
          else if c = '[' then
            '[' :: ds ++ normalizeBracketsGo (some []) rest
          else
            '[' :: ds ++ (c :: normalizeBracketsGo none rest)

/-- Normalisation of `path.replace(/\[(\d+)]/g, '.$1')`
(`objectTraversal.ts:212`): each `[digits]` group becomes `.digits`. -/
def normalizeBrackets (cs : List Char) : List Char :=
  normalizeBracketsGo none cs

/-- The `split('.')` step of parsePath, with the accumulated current
segment (JavaScript `split` keeps empty segments). -/
def splitOnDotAux (cur : List Char) : List Char → List String
  | [] => [String.mk cur.reverse]
  | c :: rest =>
      if c = '.' then String.mk cur.reverse :: splitOnDotAux [] rest
      else splitOnDotAux (c :: cur) rest

/-- parsePath of `objectTraversal.ts:208-216`: empty path parses to no
segments; otherwise bracket indices are normalised to dot segments and the
path splits on dots. -/
def parsePath (path : String) : List String :=
  if path = "" then []
  else splitOnDotAux [] (normalizeBrackets path.toList)

/-- isPathPrefixMatch of `objectTraversal.ts:184-192`: the first segment
list is a prefix of the second. -/
def isPathPrefixMatch (pre path : List String) : Bool :=
  if pre.length > path.length then false
  else (pre.zip path).all (fun p => p.1 == p.2)

/-- Child lookup in a node. -/
def lookupChild (n : TreeNode) (seg : String) : Option TreeNode :=
  (n.children.find? (fun p => p.1 == seg)).map Prod.snd

/-- Child update (`Map.set` semantics: overwrite keeps the position, a new
key is appended). -/
def setChild (n : TreeNode) (seg : String) (child : TreeNode) : TreeNode :=
  match n with
  | .mk subs children slw mlw =>
      let rec go : List (String × TreeNode) → List (String × TreeNode)
        | [] => [(seg, child)]
        | (s, c) :: rest => if s == seg then (s, child) :: rest else (s, c) :: go rest
      .mk subs (go children) slw mlw

/-- Functional navigateToNode with `createIfMissing = true`
(`objectTraversal.ts:376-396`): walks `segments` (skipping empty ones),
creating missing children, and applies `f` to the target node. -/
def insertAtPath (n : TreeNode) (segments : List String) (f : TreeNode → TreeNode) : TreeNode :=
  match segments with
  | [] => f n
  | seg :: rest =>
      if seg = "" then insertAtPath n rest f
      else
        let child := (lookupChild n seg).getD createNode
        setChild n seg (insertAtPath child rest f)

/-- Functional navigateToNode with `createIfMissing = false`: when a child
is missing the walk stops and `f` applies to the node reached — the
source's `return current` quirk (`objectTraversal.ts:382-385`). -/
def modifyAtReached (n : TreeNode) (segments : List String) (f : TreeNode → TreeNode) : TreeNode :=
  match segments with
  | [] => f n
  | seg :: rest =>
      if seg = "" then modifyAtReached n rest f
      else
        match lookupChild n seg with
        | none => f n
        | some child => setChild n seg (modifyAtReached child rest f)

/-- Addition of an id to a node's subscriber map
(`node.subscribers.set(subscriber.id, subscriber)`). -/
def addSubToNode (id : String) (n : TreeNode) : TreeNode :=
  match n with
  | .mk subs children slw mlw => .mk (insertSet subs id) children slw mlw

/-- Removal of an id from a node's subscriber map. -/
def removeSubFromNode (id : String) (n : TreeNode) : TreeNode :=
  match n with
  | .mk subs children slw mlw => .mk (subs.filter (fun s => s ≠ id)) children slw mlw

/-- Addition of an id to a node's single-level wildcard child, creating it
when absent (`objectTraversal.ts:340-344`). -/
def addToSlw (id : String) (n : TreeNode) : TreeNode :=
  match n with
  | .mk subs children slw mlw =>
      .mk subs children (some (addSubToNode id (slw.getD createNode))) mlw

/-- Addition of an id to a node's multi-level wildcard child
(`objectTraversal.ts:352-356`). -/
def addToMlw (id : String) (n : TreeNode) : TreeNode :=
  match n with
  | .mk subs children slw mlw =>
      .mk subs children slw (some (addSubToNode id (mlw.getD createNode)))

/-- Removal of an id from the single-level wildcard child if present. -/
def removeFromSlw (id : String) (n : TreeNode) : TreeNode :=
  match n with
  | .mk subs children slw mlw =>
      .mk subs children (slw.map (removeSubFromNode id)) mlw

/-- Removal of an id from the multi-level wildcard child if present. -/
def removeFromMlw (id : String) (n : TreeNode) : TreeNode :=
  match n with
  | .mk subs children slw mlw =>
      .mk subs children slw (mlw.map (removeSubFromNode id))

/-- Map.set on the wildcard subscriber map. -/
def setWInfo (m : List (String × WildcardInfo)) (id : String) (w : WildcardInfo) :
    List (String × WildcardInfo) :=
  match m with
  | [] => [(id, w)]
  | (i, w0) :: rest => if i == id then (i, w) :: rest else (i, w0) :: setWInfo rest id w

/-- addSubscriberToPath of `objectTraversal.ts:321-369`: registers an id
under a path or wildcard pattern, returning the updated trie root and
wildcard map. -/
def addSubscriberToPath (root : TreeNode) (wmap : List (String × WildcardInfo))
    (path : String) (id : String) : TreeNode × List (String × WildcardInfo) :=
  let segments := parsePath path
  match segments.getLast? with
  | none => (addSubToNode id root, wmap)
  | some lastSegment =>
      if lastSegment = "*" then
        let parentSegments := segments.dropLast
        let parentPath := String.intercalate "." parentSegments
        (insertAtPath root parentSegments (addToSlw id),
         setWInfo wmap id ⟨.singleLevel, parentPath⟩)
      else if lastSegment = "**" then
        let parentSegments := segments.dropLast
        let parentPath := String.intercalate "." parentSegments
        (insertAtPath root parentSegments (addToMlw id),
         setWInfo wmap id ⟨.multiLevel, parentPath⟩)
      else
        (insertAtPath root segments (addSubToNode id), wmap)

/-- removeSubscriberFromPath of `objectTraversal.ts:443-489`: the wildcard
map provides the registered parent path when the id is present there (that
branch also clears the map entry); otherwise the path itself decides
whether a wildcard or plain node is targeted. -/
def removeSubscriberFromPath (root : TreeNode) (wmap : List (String × WildcardInfo))
    (path : String) (id : String) : TreeNode × List (String × WildcardInfo) :=
  match (wmap.find? (fun p => p.1 == id)).map Prod.snd with
  | some winfo =>
      let parentSegments := parsePath winfo.parentPath
      let root2 :=
        match winfo.type with
        | .singleLevel => modifyAtReached root parentSegments (removeFromSlw id)
        | .multiLevel => modifyAtReached root parentSegments (removeFromMlw id)
      (root2, wmap.filter (fun p => p.1 ≠ id))
  | none =>
      let segments := parsePath path
      match segments.getLast? with
      | none => (root, wmap)
      | some lastSegment =>
          if lastSegment = "*" then
            (modifyAtReached root segments.dropLast (removeFromSlw id), wmap)
          else if lastSegment = "**" then
            (modifyAtReached root segments.dropLast (removeFromMlw id), wmap)
          else
            (modifyAtReached root segments (removeSubFromNode id), wmap)

/-- A subscription change queued while a notification is in progress
(`objectTraversal.ts:236-241,246,405`): the queued closures call
`performSubscribe`/`performUnsubscribe` when flushed. -/
inductive PendingChange where
  | sub (id : String) (priority : Int) (throttle : Option Nat) (paths : List String)
  | unsub (id : String)

/-- State of a `SubscriptionTree` (`objectTraversal.ts:152-175,495-501`). -/
structure SubscriptionTree where
  root : TreeNode
  subscriberRegistry : List (String × Subscriber)
  pathSubscriberMap : List (String × List String)
  wildcardSubscriberMap : List (String × WildcardInfo)
  notifyingCounter : Nat
  pendingSubscriptionChanges : List PendingChange

/-- Freshly constructed tree (`objectTraversal.ts:170-175`). -/
def SubscriptionTree.new : SubscriptionTree :=
  ⟨createNode, [], [], [], 0, []⟩

/-- Registry lookup (dereference of a stored subscriber object). -/
def regGet (t : SubscriptionTree) (id : String) : Option Subscriber :=
  (t.subscriberRegistry.find? (fun p => p.1 == id)).map Prod.snd

/-- Map.set on the registry. -/
def setReg (m : List (String × Subscriber)) (id : String) (s : Subscriber) :
    List (String × Subscriber) :=
  match m with
  | [] => [(id, s)]
  | (i, s0) :: rest => if i == id then (i, s) :: rest else (i, s0) :: setReg rest id s

/-- Addition of an id to `pathSubscriberMap[path]`
(`objectTraversal.ts:294-303`). -/
def addToPathMap (m : List (String × List String)) (path : String) (id : String) :
    List (String × List String) :=
  match m with
  | [] => [(path, [id])]
  | (p, ids) :: rest =>
      if p == path then (p, insertSet ids id) :: rest
      else (p, ids) :: addToPathMap rest path id

/-- Removal of an id from `pathSubscriberMap[path]`, dropping the entry
when it empties (`objectTraversal.ts:424-431`). -/
def removeFromPathMap (m : List (String × List String)) (path : String) (id : String) :
    List (String × List String) :=
  match m with
  | [] => []
  | (p, ids) :: rest =>
      if p == path then
        let ids2 := ids.filter (fun s => s ≠ id)
        if ids2.isEmpty then rest else (p, ids2) :: rest
      else (p, ids) :: removeFromPathMap rest path id

/-- performUnsubscribe of `objectTraversal.ts:416-436`: removes the
subscriber from every path it depends on, from the path map and from the
registry. -/
def performUnsubscribe (t : SubscriptionTree) (id : String) : SubscriptionTree :=
  match regGet t id with
  | none => t
  | some sub =>
      let step := fun (acc : TreeNode × List (String × WildcardInfo) × List (String × List String))
          (path : String) =>
        let r := removeSubscriberFromPath acc.1 acc.2.1 path id
        (r.1, r.2, removeFromPathMap acc.2.2 path id)
      let acc2 :=
        sub.dependencyPaths.foldl step (t.root, t.wildcardSubscriberMap, t.pathSubscriberMap)
      { t with root := acc2.1,
               wildcardSubscriberMap := acc2.2.1,
               pathSubscriberMap := acc2.2.2,
               subscriberRegistry := t.subscriberRegistry.filter (fun p => p.1 ≠ id) }

/-- unsubscribe of `objectTraversal.ts:402-410`: deferred while a
notification is in progress. -/
def unsubscribeModel (t : SubscriptionTree) (id : String) : SubscriptionTree :=
  if t.notifyingCounter > 0 then
    { t with pendingSubscriptionChanges := t.pendingSubscriptionChanges ++ [.unsub id] }
  else performUnsubscribe t id

/-- performSubscribe of `objectTraversal.ts:261-314`: replaces an existing
registration of the same id (through the queue-aware `unsubscribe`),
creates the subscriber, registers it, and adds it under every path. -/
def performSubscribe (t : SubscriptionTree) (id : String) (priority : Int)
    (throttle : Option Nat) (paths : List String) : SubscriptionTree :=
  let t1 := if (regGet t id).isSome then unsubscribeModel t id else t
  let sub : Subscriber := ⟨id, priority, throttle, none, true, paths⟩
  let t2 := { t1 with subscriberRegistry := setReg t1.subscriberRegistry id sub }
  let step := fun (acc : TreeNode × List (String × WildcardInfo) × List (String × List String))
      (path : String) =>
    let r := addSubscriberToPath acc.1 acc.2.1 path id
    (r.1, r.2, addToPathMap acc.2.2 path id)
  let acc2 := paths.foldl step (t2.root, t2.wildcardSubscriberMap, t2.pathSubscriberMap)
  { t2 with root := acc2.1, wildcardSubscriberMap := acc2.2.1, pathSubscriberMap := acc2.2.2 }

/-- subscribe of `objectTraversal.ts:225-255`: while a notification is in
progress the whole registration is queued; otherwise it happens at once. -/
def subscribeModel (t : SubscriptionTree) (id : String) (priority : Int)
    (throttle : Option Nat) (paths : List String) : SubscriptionTree :=
  if t.notifyingCounter > 0 then
    { t with pendingSubscriptionChanges :=
        t.pendingSubscriptionChanges ++ [.sub id priority throttle paths] }
  else performSubscribe t id priority throttle paths

/-- Application of one queued change during the flush (the queued closures
call the perform-variants directly, `objectTraversal.ts:237-239,405`). -/
def applyChange (t : SubscriptionTree) : PendingChange → SubscriptionTree
  | .sub id priority throttle paths => performSubscribe t id priority throttle paths
  | .unsub id => performUnsubscribe t id

/-- Start of a notification cycle (`objectTraversal.ts:510`,
`this.notifyingCounter++`). -/
def notifyEnter (t : SubscriptionTree) : SubscriptionTree :=
  { t with notifyingCounter := t.notifyingCounter + 1 }

/-- End of a notification cycle (`objectTraversal.ts:652-670`): the counter
decrements; when the outermost cycle ends and changes are queued, the
queue is cleared first and every queued change is applied once, in
order. -/
def notifyExit (t : SubscriptionTree) : SubscriptionTree :=
  let t2 := { t with notifyingCounter := t.notifyingCounter - 1 }
  if t2.notifyingCounter = 0 ∧ ¬ t2.pendingSubscriptionChanges.isEmpty then
    let changes := t2.pendingSubscriptionChanges
    let t3 := { t2 with pendingSubscriptionChanges := [] }
    changes.foldl applyChange t3
  else t2

/-- Map.set on the collected `subscribersToNotify` map (keyed by id,
insertion-ordered, overwrite keeps the position). -/
def mapSetSub (acc : List (String × Subscriber)) (id : String) (sub : Subscriber) :
    List (String × Subscriber) :=
  match acc with
  | [] => [(id, sub)]
  | (i, s0) :: rest => if i == id then (i, sub) :: rest else (i, s0) :: mapSetSub rest id sub

/-- Collection of one node's wildcard-child subscribers into the batch
(`objectTraversal.ts:566-585`: snapshot of the child map's values, skipping
inactive or already-notified subscribers). -/
def addNodeSubsTo (t : SubscriptionTree) (node : Option TreeNode) (notified : List String)
    (acc : List (String × Subscriber)) : List (String × Subscriber) :=
  match node with
  | none => acc
  | some n =>
      n.subs.foldl (fun acc id =>
        match regGet t id with
        | none => acc
        | some sub =>
            if sub.active && ¬ notified.contains id then mapSetSub acc id sub else acc) acc

/-- The retained tree traversal of `notifySubscribers`
(`objectTraversal.ts:556-603`): walks the changed path's segments, at every
node collecting the single- and multi-level wildcard subscribers before
descending, then the child node's direct subscribers; stops when a child is
missing.  (The `currentPath` string the source also builds is never read
afterwards.) -/
def collectTraverse (t : SubscriptionTree) (node : TreeNode) (segments : List String)
    (notified : List String) (acc : List (String × Subscriber)) : List (String × Subscriber) :=
  match segments with
  | [] => acc
  | seg :: rest =>
      if seg = "" then collectTraverse t node rest notified acc
      else
        let acc := addNodeSubsTo t node.slw notified acc
        let acc := addNodeSubsTo t node.mlw notified acc
        match lookupChild node seg with
        | none => acc
        | some next =>
            let acc := addNodeSubsTo t (some next) notified acc
            collectTraverse t next rest notified acc

/-- Collection phase of `notifySubscribers` for one changed path
(`objectTraversal.ts:517-604`): root subscribers, then the wildcard-map
matches (`*` = parent plus exactly one more segment, `**` = parent is a
prefix), then the retained tree traversal. -/
def collectForPath (t : SubscriptionTree) (notified : List String)
    (acc : List (String × Subscriber)) (path : String) : List (String × Subscriber) :=
  let segments := parsePath path
  -- objectTraversal.ts:524-529 — root-node subscribers
  let acc := addNodeSubsTo t (some t.root) notified acc
  -- objectTraversal.ts:532-553 — wildcard-map matches
  let acc := t.wildcardSubscriberMap.foldl (fun acc entry =>
    let (sid, winfo) := entry
    match regGet t sid with
    | none => acc
    | some sub =>
        if ¬ sub.active || notified.contains sid then acc
        else
          let parentSegments := parsePath winfo.parentPath
          match winfo.type with
          | .singleLevel =>
              if segments.length = parentSegments.length + 1 &&
                  isPathPrefixMatch parentSegments segments then
                mapSetSub acc sid sub
              else acc
          | .multiLevel =>
              if segments.length ≥ parentSegments.length &&
                  isPathPrefixMatch parentSegments segments then
                mapSetSub acc sid sub
              else acc) acc
  -- objectTraversal.ts:556-603 — retained tree traversal
  collectTraverse t t.root segments notified acc

/-- Stable insertion of a subscriber after every already-placed subscriber
of equal or higher priority. -/
def insortAfterGE : List Subscriber → Subscriber → List Subscriber
  | [], x => [x]
  | y :: ys, x => if y.priority ≥ x.priority then y :: insortAfterGE ys x else x :: y :: ys

/-- The stable descending-priority sort of
`objectTraversal.ts:607-609` (`sort((a, b) => b.priority - a.priority)`;
the engine sort is stable, ties keep collection order). -/
def sortByPriorityDesc (l : List Subscriber) : List Subscriber :=
  l.foldl insortAfterGE []

/-- JavaScript truthiness of an optional number field (`0` and `undefined`
are falsy). -/
def truthyNat : Option Nat → Bool
  | none => false
  | some n => n ≠ 0

/-- Invocation phase of `notifySubscribers`
(`objectTraversal.ts:503-650`): the ids whose callbacks run for the given
changed paths, in invocation order — the collected batch sorted by
descending priority, minus the subscribers skipped by throttling
(`now - lastExecuted < throttle`, both fields truthy).  `now` models
`performance.now()`.  (Trie mutation during the cycle is modelled by
`notifyEnter`/`notifyExit` around this pure collection.) -/
def notifiedIds (t : SubscriptionTree) (changedPaths : List String) (now : Nat) : List String :=
  if changedPaths.isEmpty then []
  else
    -- `notifiedSubscribers` is only filled during invocation, hence empty
    -- throughout the collection phase
    let collected := changedPaths.foldl (fun acc p => collectForPath t [] acc p) []
    let sorted := sortByPriorityDesc (collected.map Prod.snd)
    (sorted.filter (fun sub =>
      if truthyNat sub.throttle && truthyNat sub.lastExecuted then
        ¬ (now - sub.lastExecuted.getD 0 < sub.throttle.getD 0)
      else true)).map Subscriber.id

/-- Tree with subscriber `s1` on pattern `a.*` and subscriber `s2` on
pattern `a.**` (both priority 0, no throttle). -/
def c2Tree : SubscriptionTree :=
  performSubscribe (performSubscribe SubscriptionTree.new "s1" 0 none ["a.*"]) "s2" 0 none ["a.**"]

/-- Claim C2 (code bug evidence): an `a.*` subscriber fires for the
one-level paths `a.x` and `a.y`, and an `a.**` subscriber fires for `a.x`
and `a.x.y` — but, contradicting the claim, the `a.*` subscriber `s1` is
ALSO notified for the two-level path `a.x.y`: the retained tree traversal
of `notifySubscribers` collects the single-level wildcard subscribers
stored at every node along the changed path without checking how many
segments remain (the wildcard-map check preceding it does check, but the
traversal's additions make the union over-approximate). -/
theorem c2_single_level_wildcard_over_fires :
    notifiedIds c2Tree ["a.x"] 0 = ["s1", "s2"] ∧
    notifiedIds c2Tree ["a.y"] 0 = ["s1", "s2"] ∧
    notifiedIds c2Tree ["a.x.y"] 0 = ["s2", "s1"] ∧
    "s1" ∈ notifiedIds c2Tree ["a.x.y"] 0 := by
  refine ⟨by decide, by decide, by decide, by decide⟩

/-- Unsubscription never touches the queue or the notification counter. -/
theorem performUnsubscribe_fields (t : SubscriptionTree) (id : String) :
    (performUnsubscribe t id).pendingSubscriptionChanges = t.pendingSubscriptionChanges ∧
    (performUnsubscribe t id).notifyingCounter = t.notifyingCounter := by
  unfold performUnsubscribe
  cases h : regGet t id <;> simp

/-- Registration (outside a notification) never touches the queue or the
notification counter. -/
theorem performSubscribe_fields (t : SubscriptionTree) (id : String) (priority : Int)
    (throttle : Option Nat) (paths : List String) (h : t.notifyingCounter = 0) :
    (performSubscribe t id priority throttle paths).pendingSubscriptionChanges =
      t.pendingSubscriptionChanges ∧
    (performSubscribe t id priority throttle paths).notifyingCounter = 0 := by
  unfold performSubscribe
  have hunsub : unsubscribeModel t id = performUnsubscribe t id := by
    unfold unsubscribeModel
    simp [h]
  cases hreg : (regGet t id).isSome <;>
    simp [hreg, hunsub, performUnsubscribe_fields t id, h]

/-- A flushed queued change never touches the queue or the notification
counter. -/
theorem applyChange_fields (t : SubscriptionTree) (c : PendingChange)
    (h : t.notifyingCounter = 0) :
    (applyChange t c).pendingSubscriptionChanges = t.pendingSubscriptionChanges ∧
    (applyChange t c).notifyingCounter = 0 := by
  cases c with
  | sub id priority throttle paths => exact performSubscribe_fields t id priority throttle paths h
  | unsub id =>
      refine ⟨(performUnsubscribe_fields t id).1, ?_⟩
      show (performUnsubscribe t id).notifyingCounter = 0
      rw [(performUnsubscribe_fields t id).2, h]

/-- The flush applies the whole queue without re-queueing anything. -/
theorem foldl_applyChange_fields :
    ∀ (cs : List PendingChange) (t : SubscriptionTree), t.notifyingCounter = 0 →
      (cs.foldl applyChange t).pendingSubscriptionChanges = t.pendingSubscriptionChanges ∧
      (cs.foldl applyChange t).notifyingCounter = 0 := by
  intro cs
  induction cs with
  | nil => intro t h; exact ⟨rfl, h⟩
  | cons c cs ih =>
      intro t h
      obtain ⟨h1, h2⟩ := applyChange_fields t c h
      obtain ⟨h3, h4⟩ := ih (applyChange t c) h2
      exact ⟨by rw [List.foldl_cons, h3, h1], by rw [List.foldl_cons, h4]⟩

/-- Claim C6: a `subscribe` or `unsubscribe` issued while a notification is
in progress is deferred — the trie, the registry and the maps are not
modified, the request is queued — and the queued changes are applied
exactly once, in order, when the outermost notification completes: an
inner exit leaves the queue untouched, the outermost exit empties the
queue and folds each queued change over the tree once. -/
theorem c6_mid_notification_mutations_deferred (t : SubscriptionTree) (id : String)
    (priority : Int) (throttle : Option Nat) (paths : List String)
    (hn : t.notifyingCounter > 0) :
    (subscribeModel t id priority throttle paths =
      { t with pendingSubscriptionChanges :=
          t.pendingSubscriptionChanges ++ [.sub id priority throttle paths] } ∧
     (subscribeModel t id priority throttle paths).root = t.root ∧
     (subscribeModel t id priority throttle paths).subscriberRegistry = t.subscriberRegistry ∧
     (subscribeModel t id priority throttle paths).pathSubscriberMap = t.pathSubscriberMap ∧
     (subscribeModel t id priority throttle paths).wildcardSubscriberMap =
       t.wildcardSubscriberMap) ∧
    (unsubscribeModel t id =
      { t with pendingSubscriptionChanges :=
          t.pendingSubscriptionChanges ++ [.unsub id] } ∧
     (unsubscribeModel t id).root = t.root ∧
     (unsubscribeModel t id).subscriberRegistry = t.subscriberRegistry) ∧
    (t.notifyingCounter = 1 →
      notifyExit t = t.pendingSubscriptionChanges.foldl applyChange
        { t with notifyingCounter := 0, pendingSubscriptionChanges := [] } ∧
      (notifyExit t).pendingSubscriptionChanges = []) ∧
    (t.notifyingCounter ≥ 2 →
      notifyExit t = { t with notifyingCounter := t.notifyingCounter - 1 }) := by
  have hsub : subscribeModel t id priority throttle paths =
      { t with pendingSubscriptionChanges :=
          t.pendingSubscriptionChanges ++ [.sub id priority throttle paths] } := by
    unfold subscribeModel
    simp [hn]
  have hunsub : unsubscribeModel t id =
      { t with pendingSubscriptionChanges := t.pendingSubscriptionChanges ++ [.unsub id] } := by
    unfold unsubscribeModel
    simp [hn]
  refine ⟨⟨hsub, by rw [hsub], by rw [hsub], by rw [hsub], by rw [hsub]⟩,
          ⟨hunsub, by rw [hunsub], by rw [hunsub]⟩, ?_, ?_⟩
  · intro h1
    clear hsub hunsub
    obtain ⟨rt, reg, pmap, wmap, cnt, pending⟩ := t
    simp only at h1
    subst h1
    by_cases hp : pending = []
    · subst hp
      exact ⟨rfl, rfl⟩
    · constructor
      · unfold notifyExit
        simp [hp]
      · unfold notifyExit
        simp [hp]
        simpa using (foldl_applyChange_fields pending
          ⟨rt, reg, pmap, wmap, 0, []⟩ rfl).1
  · intro h2
    unfold notifyExit
    have : ¬ (t.notifyingCounter - 1 = 0) := by omega
    simp [this]

/-- Witness for claim C6 at a concrete tree: with one notification in
progress, a subscribe is queued without touching the trie, and finishing
the notification applies it exactly once. -/
theorem c6_mid_notification_witness :
    (subscribeModel (notifyEnter c2Tree) "s3" 0 none ["b"]).root = (notifyEnter c2Tree).root ∧
    (subscribeModel (notifyEnter c2Tree) "s3" 0 none ["b"]).pendingSubscriptionChanges =
      [.sub "s3" 0 none ["b"]] ∧
    SubscriptionTree.pendingSubscriptionChanges
      (notifyExit (subscribeModel (notifyEnter c2Tree) "s3" 0 none ["b"])) = [] := by
  have h := c6_mid_notification_mutations_deferred (notifyEnter c2Tree) "s3" 0 none ["b"]
    (by decide)
  refine ⟨h.1.2.1, ?_, ?_⟩
  · rw [h.1.1]
    rfl
  · have h2 := c6_mid_notification_mutations_deferred
      (subscribeModel (notifyEnter c2Tree) "s3" 0 none ["b"]) "s3" 0 none ["b"] (by decide)
    exact (h2.2.2.1 (by decide)).2

/-- An error value reaching the async manager: a DOMException `AbortError`
(with its message) or an ordinary `Error`. -/
inductive JSError where
  | domAbort (msg : String)
  | err (msg : String)
  deriving DecidableEq

/-- Per-operation status (`AsyncState` of
`src/state-store/core/types/internal/state.ts`): `{pending, error,
loaded}`. -/
structure AsyncState where
  pending : Bool
  error : Option JSError
  loaded : Bool
  deriving DecidableEq

/-- Result of an async action (`AsyncResult` of the public types):
`{success: true, state}` or `{success: false, error}`. -/
structure AsyncResultM where
  success : Bool
  state : Option Fields
  error : Option JSError

/-- How the wrapped action's promise settles: it resolves with an
`AsyncResult` or rejects with a thrown error. -/
inductive Settlement where
  | resolved (r : AsyncResultM)
  | rejected (e : JSError)

/-- Observable state of an `AsyncActionManager`
(`src/state-store/core/internal/AsyncActionManager.ts:14-23`):
`asyncStateMap`, `activeActionRequests`, the sequence of
`this.setState(...)` calls it issued, and the number of
`notifyListeners()` calls.  `abortControllers` and `timeoutIds` are
resource bookkeeping with no effect on status or state and are not
represented. -/
structure MgrState where
  asyncStateMap : List (String × AsyncState)
  activeActionRequests : List (String × String)
  setStateCalls : List Fields
  notifyCount : Nat

/-- The freshly initialised manager (`initializeAsyncState`,
`AsyncActionManager.ts:243-257`, gives every key
`{pending: false, error: null, loaded: false}`; the empty map with that
default reading models it). -/
def MgrState.init : MgrState := ⟨[], [], [], 0⟩

/-- Read of `this.asyncStateMap[key]` (absent keys read as the initial
status). -/
def lookupStatus (m : MgrState) (key : String) : AsyncState :=
  ((m.asyncStateMap.find? (fun p => p.1 == key)).map Prod.snd).getD ⟨false, none, false⟩

/-- Map.set on the status map. -/
def setStatus (ms : List (String × AsyncState)) (key : String) (st : AsyncState) :
    List (String × AsyncState) :=
  match ms with
  | [] => [(key, st)]
  | (k, s0) :: rest => if k == key then (k, st) :: rest else (k, s0) :: setStatus rest key st

/-- Read of `this.activeActionRequests.get(key)`. -/
def lookupActive (m : MgrState) (key : String) : Option String :=
  (m.activeActionRequests.find? (fun p => p.1 == key)).map Prod.snd

/-- Map.set on the active-request map. -/
def setActive (ms : List (String × String)) (key reqId : String) : List (String × String) :=
  match ms with
  | [] => [(key, reqId)]
  | (k, r0) :: rest => if k == key then (k, reqId) :: rest else (k, r0) :: setActive rest key reqId

/-- Containment of `pat` as a contiguous run inside `l`. -/
def listHasInfix (pat : List Char) : List Char → Bool
  | [] => pat.isPrefixOf []
  | c :: rest => pat.isPrefixOf (c :: rest) || listHasInfix pat rest

/-- JavaScript `String.prototype.includes` (used by the settlement code as
`String(error.message).includes('timed out')`,
`AsyncActionManager.ts:181`). -/
def includesSub (s needle : String) : Bool :=
  listHasInfix needle.toList s.toList

/-- The invocation prologue of the wrapped async action
(`AsyncActionManager.ts:79-121`): the previous in-flight request for the
key is aborted and its watchdog cleared (resource bookkeeping), the new
request id is recorded as the active one, the status becomes
`{pending: true, error: null, loaded: false}` and the listeners are
notified. -/
def invokeStart (m : MgrState) (key reqId : String) : MgrState :=
  { m with activeActionRequests := setActive m.activeActionRequests key reqId,
           asyncStateMap := setStatus m.asyncStateMap key ⟨true, none, false⟩,
           notifyCount := m.notifyCount + 1 }

/-- The settlement epilogue of the wrapped async action
(`AsyncActionManager.ts:146-236`), as a total function — no error escapes
the wrapper.  Resolution: a superseded request returns its result without
touching shared status or state (lines 149-153); success records
`{pending: false, error: null, loaded: true}` and forwards the partial
state to `this.setState` (lines 155-164); failure records the error status
and notifies (lines 166-174).  Rejection: an `AbortError` whose message
mentions `timed out` records the error status regardless of the active
request (lines 178-189); any other `AbortError` changes nothing (line
190-191); an ordinary error is dropped when superseded (lines 194-201) and
otherwise recorded (lines 203-217).  The `finally` block (lines 218-236)
clears the watchdog and controller (not represented) and removes the
active-request entry only when this request still owns it. -/
def settle (m : MgrState) (key reqId : String) (stl : Settlement) : MgrState × AsyncResultM :=
  let active := lookupActive m key
  let body : MgrState × AsyncResultM :=
    match stl with
    | .resolved result =>
        if active ≠ some reqId then (m, result)
        else if result.success then
          ({ m with asyncStateMap := setStatus m.asyncStateMap key ⟨false, none, true⟩,
                    setStateCalls := m.setStateCalls ++ [result.state.getD []] }, result)
        else
          ({ m with asyncStateMap := setStatus m.asyncStateMap key ⟨false, result.error, false⟩,
                    notifyCount := m.notifyCount + 1 }, result)
    | .rejected e =>
        match e with
        | .domAbort msg =>
            if includesSub msg "timed out" then
              ({ m with asyncStateMap := setStatus m.asyncStateMap key ⟨false, some e, false⟩,
                        notifyCount := m.notifyCount + 1 },
               ⟨false, none, some e⟩)
            else (m, ⟨false, none, some e⟩)
        | .err _ =>
            if active ≠ some reqId then (m, ⟨false, none, some e⟩)
            else
              ({ m with asyncStateMap := setStatus m.asyncStateMap key ⟨false, some e, false⟩,
                        notifyCount := m.notifyCount + 1 },
               ⟨false, none, some e⟩)
  let m2 := body.1
  let m3 :=
    if lookupActive m2 key = some reqId then
      { m2 with activeActionRequests := m2.activeActionRequests.filter (fun p => p.1 ≠ key) }
    else m2
  (m3, body.2)

/-- Settlement with an abort error whose message mentions the watchdog
timeout. -/
def isTimedOutAbort : Settlement → Bool
  | .rejected (.domAbort msg) => includesSub msg "timed out"
  | _ => false

/-- Settlement that reports a failure: an unsuccessful result or a thrown
error. -/
def isFailureSettlement : Settlement → Bool
  | .resolved r => !r.success
  | .rejected _ => true

/-- Settlement by a rejected `AbortError` (of any message). -/
def isAbortRejection : Settlement → Bool
  | .rejected (.domAbort _) => true
  | _ => false

/-- The error carried by a failing settlement. -/
def settlementError : Settlement → Option JSError
  | .resolved r => r.error
  | .rejected e => some e

/-- The value the original caller receives from the wrapper. -/
def callerResult : Settlement → AsyncResultM
  | .resolved r => r
  | .rejected e => ⟨false, none, some e⟩

/-- Setting the active request stores it. -/
theorem lookupActive_invokeStart (m : MgrState) (key reqId : String) :
    lookupActive (invokeStart m key reqId) key = some reqId := by
  show ((setActive m.activeActionRequests key reqId).find? (fun p => p.1 == key)).map Prod.snd
    = some reqId
  induction m.activeActionRequests with
  | nil => simp [setActive]
  | cons p rest ih =>
      by_cases hk : p.1 = key
      · simp [setActive, hk]
      · simpa [setActive, hk] using ih

/-- Setting a status stores it. -/
theorem find_setStatus_self (ms : List (String × AsyncState)) (key : String) (st : AsyncState) :
    ((setStatus ms key st).find? (fun p => p.1 == key)).map Prod.snd = some st := by
  induction ms with
  | nil => simp [setStatus]
  | cons p rest ih =>
      by_cases hk : p.1 = key
      · simp [setStatus, hk]
      · simpa [setStatus, hk] using ih

/-- Manager after two invocations of `load`: `req1` was started and then
superseded by `req2`, which is now the active request and has set the
status to pending. -/
def c3Mgr : MgrState := invokeStart (invokeStart MgrState.init "load" "req1") "load" "req2"

/-- Claim C3 (counterexample): a settlement of the superseded `req1` is not
always barred from the shared status map — when `req1` rejects with an
`AbortError` whose message mentions `timed out` (the wrapped function can
reject with any error), the `AbortError` branch of the settlement code runs
before the superseded check and overwrites the per-operation status with
the error even though `req2` is the recorded active request, contradicting
the claim that a superseded call leaves the status map unchanged. -/
theorem c3_counterexample_superseded_timeout_abort_mutates :
    lookupStatus c3Mgr "load" = ⟨true, none, false⟩ ∧
    lookupActive c3Mgr "load" = some "req2" ∧
    lookupStatus
      (settle c3Mgr "load" "req1"
        (.rejected (.domAbort "Request timed out after 1 minute"))).1 "load" =
      ⟨false, some (.domAbort "Request timed out after 1 minute"), false⟩ := by
  refine ⟨by decide, by decide, by decide⟩

/-- Claim C3 (amended): when an invocation settles after a newer invocation
of the same name has started, its result is still returned to its original
caller while the per-operation status map, the shared state (no `setState`
call), the listener notifications and the active-request registration are
all left unchanged by it — except for the one carve-out the counterexample
exhibits: a settlement by an abort error whose message mentions `timed
out` does overwrite the per-operation status. -/
theorem c3_superseded_settlement_leaves_shared_state
    (m : MgrState) (key id1 id2 : String) (stl : Settlement)
    (hne : id1 ≠ id2) (hta : isTimedOutAbort stl = false) :
    (settle (invokeStart m key id2) key id1 stl).1.asyncStateMap =
      (invokeStart m key id2).asyncStateMap ∧
    (settle (invokeStart m key id2) key id1 stl).1.setStateCalls =
      (invokeStart m key id2).setStateCalls ∧
    (settle (invokeStart m key id2) key id1 stl).1.notifyCount =
      (invokeStart m key id2).notifyCount ∧
    (settle (invokeStart m key id2) key id1 stl).1.activeActionRequests =
      (invokeStart m key id2).activeActionRequests ∧
    (settle (invokeStart m key id2) key id1 stl).2 = callerResult stl := by
  have hact : lookupActive (invokeStart m key id2) key = some id2 :=
    lookupActive_invokeStart m key id2
  have hcond : (lookupActive (invokeStart m key id2) key ≠ some id1) := by
    rw [hact]
    intro hcon
    exact hne (Option.some.inj hcon).symm
  cases stl with
  | resolved r =>
      unfold settle
      simp [hcond, hact, Ne.symm hne, callerResult]
  | rejected e =>
      cases e with
      | domAbort msg =>
          have hmsg : includesSub msg "timed out" = false := by
            simpa [isTimedOutAbort] using hta
          unfold settle
          simp [hcond, hact, Ne.symm hne, hmsg, callerResult]
      | err msg =>
          unfold settle
          simp [hcond, hact, Ne.symm hne, callerResult]

/-- Witness for claim C3 (amended) at a concrete input: `req1` of `load`
resolves successfully after `req2` has started; the caller still receives
the successful result, but status, state, notifications and the active
registration are untouched. -/
theorem c3_superseded_settlement_witness :
    (settle (invokeStart MgrState.init "load" "req2") "load" "req1"
        (.resolved ⟨true, some [("a", .vnum 1)], none⟩)).1.asyncStateMap =
      (invokeStart MgrState.init "load" "req2").asyncStateMap ∧
    (settle (invokeStart MgrState.init "load" "req2") "load" "req1"
        (.resolved ⟨true, some [("a", .vnum 1)], none⟩)).1.setStateCalls =
      (invokeStart MgrState.init "load" "req2").setStateCalls ∧
    (settle (invokeStart MgrState.init "load" "req2") "load" "req1"
        (.resolved ⟨true, some [("a", .vnum 1)], none⟩)).2 =
      callerResult (.resolved ⟨true, some [("a", .vnum 1)], none⟩) := by
  have h := c3_superseded_settlement_leaves_shared_state MgrState.init "load" "req1" "req2"
    (.resolved ⟨true, some [("a", .vnum 1)], none⟩) (by decide) rfl
  exact ⟨h.1, h.2.1, h.2.2.2.2⟩

/-- Claim C4 (counterexample): a failing settlement of the still-active
request does not always set the per-operation error status — when the
wrapped function rejects with an `AbortError` whose message does not
mention `timed out`, the settlement code treats it as a cancellation and
leaves the status map untouched (the status stays pending), even though
the caller does receive `{success: false, error}`; the claim's promised
`{pending: false, error, loaded: false}` is not recorded. -/
theorem c4_counterexample_plain_abort_keeps_pending :
    lookupActive (invokeStart MgrState.init "load" "req1") "load" = some "req1" ∧
    (settle (invokeStart MgrState.init "load" "req1") "load" "req1"
        (.rejected (.domAbort "The operation was aborted"))).2.success = false ∧
    lookupStatus
      (settle (invokeStart MgrState.init "load" "req1") "load" "req1"
        (.rejected (.domAbort "The operation was aborted"))).1 "load" =
      ⟨true, none, false⟩ := by
  refine ⟨by decide, by decide, by decide⟩

/-- Claim C4 (amended): when the wrapped function of an async operation
fails while its request is still the active one — it resolves with an
unsuccessful result or rejects with an ordinary (non-abort) error — the
caller receives `{success: false, error}`, the per-operation status becomes
`{pending: false, error, loaded: false}`, the shared state is not modified
(no `setState` call), and no error escapes the wrapper (`settle` is a
total function); an abort-error rejection is excluded: a plain abort leaves
the status pending, a timed-out abort sets the error status. -/
theorem c4_active_failure_records_error
    (m : MgrState) (key reqId : String) (stl : Settlement)
    (hact : lookupActive m key = some reqId)
    (hfail : isFailureSettlement stl = true)
    (habort : isAbortRejection stl = false) :
    (settle m key reqId stl).2.success = false ∧
    (settle m key reqId stl).2.error = settlementError stl ∧
    lookupStatus (settle m key reqId stl).1 key = ⟨false, settlementError stl, false⟩ ∧
    (settle m key reqId stl).1.setStateCalls = m.setStateCalls := by
  have hact2 : (m.activeActionRequests.find? (fun p => p.1 == key)).map Prod.snd =
      some reqId := hact
  cases stl with
  | resolved r =>
      have hr : r.success = false := by
        simpa [isFailureSettlement] using hfail
      simp [settle, lookupStatus, lookupActive, hact2, hr, find_setStatus_self,
            settlementError, hact]
  | rejected e =>
      cases e with
      | domAbort msg => simp [isAbortRejection] at habort
      | err msg =>
          simp [settle, lookupStatus, lookupActive, hact2, find_setStatus_self,
                settlementError, hact]

/-- Witness for claim C4 (amended) at a concrete input: the active `load`
request rejects with an ordinary error; the caller gets the failure, the
status records it, no state is written. -/
theorem c4_active_failure_witness :
    (settle (invokeStart MgrState.init "load" "req1") "load" "req1"
        (.rejected (.err "network down"))).2.success = false ∧
    lookupStatus
      (settle (invokeStart MgrState.init "load" "req1") "load" "req1"
        (.rejected (.err "network down"))).1 "load" =
      ⟨false, some (.err "network down"), false⟩ ∧
    (settle (invokeStart MgrState.init "load" "req1") "load" "req1"
        (.rejected (.err "network down"))).1.setStateCalls =
      (invokeStart MgrState.init "load" "req1").setStateCalls := by
  have h := c4_active_failure_records_error (invokeStart MgrState.init "load" "req1")
    "load" "req1" (.rejected (.err "network down")) (by decide) rfl rfl
  exact ⟨h.1, h.2.2.1, h.2.2.2⟩

end StateStore
